import Mathlib

/-!
Shallow embedding of the reconciliation core implemented by the class
OpenStackHandler in module/sources/openstack/connection.py, together with
theorems checking the specification's claims about it.

Modelling conventions, used throughout:
* a compiled regular-expression object is embedded as its match function
  String → Bool (truthiness of re.match);
* the NetBox inventory and the handler's process-scoped caches are threaded
  explicitly as lists instead of being reached through self;
* Python dicts are embedded as insertion-ordered association lists;
* only the record fields that the embedded functions read are carried.
-/

namespace OpenStackSync

/-- A configured name filter: the compiled include/exclude regular
expression of the settings, embedded as its match function; none models a
filter that is not configured. -/
abbrev NameFilter := Option (String → Bool)

/-- Evaluates an optional filter on a name: none when the filter is not
configured, otherwise the match result. -/
def matchesOpt (f : NameFilter) (name : String) : Option Bool :=
  f.map (fun g => g name)

/-- passes_filter (connection.py lines 194-223): the include filter is
consulted first, then the exclude filter. -/
def passes_filter (name : String) (include_filter exclude_filter : NameFilter) : Bool :=
  -- first includes
  if matchesOpt include_filter name = some false then false
  -- second excludes
  else if matchesOpt exclude_filter name = some true then false
  else true

/-- A single entry of a configured relation table: an object_regex pattern
(embedded as its match function) and the value assigned on a match
(connection.py get_object_relation). -/
structure RelationRule where
  object_regex : String → Bool
  assigned_name : String

/-- The segment of a string before the first occurrence of a one-character
separator: split(sep)[0]. Written over the character list so that it
evaluates by kernel reduction. -/
def split_head (sep : Char) (s : String) : String :=
  String.mk (s.data.takeWhile (fun c => c ≠ sep))

/-- First underscore-separated word of a relation identifier, e.g.
"cluster" for "cluster_site_relation" (grab of split("_") index 0, which
always exists). -/
def relation_first_word (relation : String) : String :=
  split_head '_' relation

/-- Second underscore-separated word of a relation identifier, e.g. "tag"
for "host_tag_relation" (grab of split("_") index 1; none when the
identifier has no underscore). -/
def relation_second_word (relation : String) : Option String :=
  match relation.data.dropWhile (fun c => c ≠ '_') with
  | [] => none
  | _ :: tail => some (String.mk (tail.takeWhile (fun c => c ≠ '_')))

/-- The name with its first "/"-separated path segment removed
("/".join(name.split("/")[1:]), i.e. everything after the first "/", empty
when there is none), used by the special cluster condition of
get_object_relation (line 455). -/
def stripped_cluster_name (name : String) : String :=
  String.mk ((name.data.dropWhile (fun c => c ≠ '/')).drop 1)

/-- The rule loop of get_object_relation (connection.py lines 442-461): a
rule contributes its assigned_name when its pattern matches the name, or -
for relation identifiers starting with "cluster" - when it matches the name
with the first path segment stripped. -/
def resolved_list_for (name relation : String) : List RelationRule → List String
  | [] => []
  | single_relation :: rest =>
    if single_relation.object_regex name then
      single_relation.assigned_name :: resolved_list_for name relation rest
    else if relation_first_word relation = "cluster" ∧
        single_relation.object_regex (stripped_cluster_name name) = true then
      single_relation.assigned_name :: resolved_list_for name relation rest
    else
      resolved_list_for name relation rest

/-- Result of get_object_relation: the full value list for "tag" relations,
otherwise a single optional value together with whether the multiple-match
diagnostic (line 471) was logged. -/
inductive RelationResult where
  | tags (values : List String)
  | single (value : Option String) (multi_match_diag : Bool)
deriving DecidableEq, Repr

/-- get_object_relation (connection.py lines 424-474). -/
def get_object_relation (name relation : String) (rules : List RelationRule)
    (fallback : Option String) : RelationResult :=
  let resolved_list := resolved_list_for name relation rules
  if relation_second_word relation = some "tag" then
    RelationResult.tags resolved_list
  else
    match resolved_list with
    | [] => RelationResult.single fallback false
    | resolved_name :: rest =>
      RelationResult.single (some resolved_name) (decide (1 < (resolved_name :: rest).length))

/-- A rule matches a name (for a given relation identifier) when its pattern
matches the full name or, for "cluster" relations, the stripped name. -/
def rule_matches (name relation : String) (r : RelationRule) : Bool :=
  r.object_regex name ||
    (decide (relation_first_word relation = "cluster") &&
      r.object_regex (stripped_cluster_name name))

theorem resolved_list_for_eq_filter (name relation : String) (rules : List RelationRule) :
    resolved_list_for name relation rules =
      (rules.filter (rule_matches name relation)).map RelationRule.assigned_name := by
  induction rules with
  | nil => rfl
  | cons r rest ih =>
    by_cases h1 : r.object_regex name
    · simp [resolved_list_for, rule_matches, h1, List.filter_cons, ih]
    · by_cases h2 : relation_first_word relation = "cluster" ∧
          r.object_regex (stripped_cluster_name name) = true
      · simp [resolved_list_for, rule_matches, h1, h2.1, h2.2, List.filter_cons, ih]
      · rw [not_and_or] at h2
        rcases h2 with h2 | h2
        · simp [resolved_list_for, rule_matches, h1, h2, List.filter_cons, ih]
        · by_cases h3 : relation_first_word relation = "cluster"
          · simp [resolved_list_for, rule_matches, h1, h3, eq_false_of_ne_true h2,
              List.filter_cons, ih]
          · simp [resolved_list_for, rule_matches, h1, h3, List.filter_cons, ih]

/-- C9: passes_filter returns false exactly when a configured include
pattern fails to match, or - the include check having passed or being absent
- when a configured exclude pattern matches; in every other case, including
absent patterns, it returns true. -/
theorem claim_C9_passes_filter (name : String) (include_filter exclude_filter : NameFilter) :
    passes_filter name include_filter exclude_filter = false ↔
      ((∃ f, include_filter = some f ∧ f name = false) ∨
        ((∀ f, include_filter = some f → f name = true) ∧
          (∃ g, exclude_filter = some g ∧ g name = true))) := by
  cases include_filter with
  | none =>
    cases exclude_filter with
    | none => simp [passes_filter, matchesOpt]
    | some g => by_cases hg : g name <;> simp [passes_filter, matchesOpt, hg]
  | some f =>
    cases exclude_filter with
    | none => by_cases hf : f name <;> simp [passes_filter, matchesOpt, hf]
    | some g =>
      by_cases hf : f name <;> by_cases hg : g name <;>
        simp [passes_filter, matchesOpt, hf, hg]

/-- C6: get_object_relation returns the full ordered list of assigned
values of all matching rules for a "tag" relation; otherwise it returns the
first matching rule's value - logging the multiple-match diagnostic exactly
when more than one rule matched - and the fallback when no rule matched. -/
theorem claim_C6_get_object_relation (name relation : String)
    (rules : List RelationRule) (fallback : Option String) :
    get_object_relation name relation rules fallback =
      (if relation_second_word relation = some "tag" then
        RelationResult.tags
          ((rules.filter (rule_matches name relation)).map RelationRule.assigned_name)
      else
        match (rules.filter (rule_matches name relation)).map RelationRule.assigned_name with
        | [] => RelationResult.single fallback false
        | v :: vs => RelationResult.single (some v) (decide (0 < vs.length))) := by
  unfold get_object_relation
  rw [resolved_list_for_eq_filter]
  by_cases ht : relation_second_word relation = some "tag"
  · simp [ht]
  · simp only [ht, if_false]
    cases h : (rules.filter (rule_matches name relation)).map RelationRule.assigned_name with
    | nil => simp
    | cons v vs =>
      simp only
      congr 1
      simp [List.length_cons, Nat.succ_lt_succ_iff]

/-- The two NetBox object kinds whose primary IPs are arbitrated (NBDevice
and NBVM). -/
inductive MOKind where
  | device
  | vm
deriving DecidableEq, Repr

/-- An IP version, as it appears in the attribute names primary_ip4 and
primary_ip6. -/
inductive IPVersion where
  | v4
  | v6
deriving DecidableEq, Repr

/-- The slice of an NBDevice / NBVM inventory record that the primary-IP
arbitration block reads and writes: the object's inventory identity, its
kind and its two primary-IP slots. A slot stores the identity of the
referenced NBIPAddress object, none when unset. -/
structure ManagedObject where
  mo_id : Nat
  kind : MOKind
  primary_ip4 : Option Nat
  primary_ip6 : Option Nat
deriving DecidableEq, Repr

/-- grab of data.primary_ip4 or data.primary_ip6, by version. -/
def ManagedObject.primary_ip (o : ManagedObject) : IPVersion → Option Nat
  | .v4 => o.primary_ip4
  | .v6 => o.primary_ip6

/-- Writing one primary-IP slot (update with a value, or unset_attribute
with none). -/
def ManagedObject.with_primary_ip (o : ManagedObject) : IPVersion → Option Nat → ManagedObject
  | .v4, val => { o with primary_ip4 := val }
  | .v6, val => { o with primary_ip6 := val }

/-- The NBIPAddress object being attached, as the arbitration block sees
it: its inventory identity and its is_new flag. -/
structure IPAddressObj where
  ip_id : Nat
  is_new : Bool
deriving DecidableEq, Repr

/-- The configured set_primary_ip policy. -/
inductive SetPrimaryIPSetting where
  | always
  | when_undefined
  | never
deriving DecidableEq, Repr

/-- One step of the "always" clearing scan (connection.py lines 665-676):
any object other than the entity whose slot of this version equals the IP
object has that slot unset. -/
def clear_other_primary_ip (device_vm_object : ManagedObject) (ip_object : IPAddressObj)
    (ip_version : IPVersion) (devices_vms : ManagedObject) : ManagedObject :=
  if devices_vms.mo_id = device_vm_object.mo_id then devices_vms
  else if devices_vms.primary_ip ip_version = some ip_object.ip_id then
    devices_vms.with_primary_ip ip_version none
  else devices_vms

/-- The final update step (connection.py line 688): set the entity's slot of
this version to the IP object. -/
def set_entity_primary_ip (device_vm_object : ManagedObject) (ip_object : IPAddressObj)
    (ip_version : IPVersion) (o : ManagedObject) : ManagedObject :=
  if o.mo_id = device_vm_object.mo_id then o.with_primary_ip ip_version (some ip_object.ip_id)
  else o

/-- The primary-IP arbitration block of add_device_vm_to_inventory
(connection.py lines 654-688), for one IP object that equals a declared
primary address of the entity device_vm_object. Under "always", the Python
code clears matching slots on all NBDevice items and then on all NBVM
items, skipping the clearing entirely when the IP object is newly created;
the single traversal below performs the same per-object mutation. Object
identity (devices_vms == device_vm_object) is embedded as equality of
mo_id. -/
def arbitrate_primary_ip (set_primary_ip_setting : SetPrimaryIPSetting)
    (inventory : List ManagedObject) (device_vm_object : ManagedObject)
    (ip_object : IPAddressObj) (ip_version : IPVersion) : List ManagedObject :=
  let cleared :=
    if set_primary_ip_setting = .always ∧ ip_object.is_new = false then
      inventory.map (clear_other_primary_ip device_vm_object ip_object ip_version)
    else inventory
  let set_this_primary_ip :=
    match set_primary_ip_setting with
    | .always => true
    | .never => false
    | .when_undefined => (device_vm_object.primary_ip ip_version).isNone
  if set_this_primary_ip then
    cleared.map (set_entity_primary_ip device_vm_object ip_object ip_version)
  else cleared

/-- The single-owner invariant for one IP version: no two distinct
inventory positions store the same non-none primary-IP slot value. -/
def primary_ip_exclusive (inventory : List ManagedObject) (v : IPVersion) : Prop :=
  inventory.Pairwise fun a b =>
    ¬((a.primary_ip v).isSome = true ∧ a.primary_ip v = b.primary_ip v)

/-- get_by_id over the embedded device/VM inventory. -/
def get_by_mo_id (inventory : List ManagedObject) (i : Nat) : Option ManagedObject :=
  inventory.find? (fun o => o.mo_id == i)

theorem with_primary_ip_mo_id (o : ManagedObject) (v : IPVersion) (x : Option Nat) :
    (o.with_primary_ip v x).mo_id = o.mo_id := by
  cases v <;> rfl

theorem with_primary_ip_primary_ip (o : ManagedObject) (v w : IPVersion) (x : Option Nat) :
    (o.with_primary_ip v x).primary_ip w = if v = w then x else o.primary_ip w := by
  cases v <;> cases w <;> simp [ManagedObject.with_primary_ip, ManagedObject.primary_ip]

theorem clear_other_primary_ip_mo_id (e : ManagedObject) (ip : IPAddressObj) (v : IPVersion)
    (o : ManagedObject) : (clear_other_primary_ip e ip v o).mo_id = o.mo_id := by
  unfold clear_other_primary_ip
  split
  · rfl
  · split
    · exact with_primary_ip_mo_id o v none
    · rfl

theorem set_entity_primary_ip_mo_id (e : ManagedObject) (ip : IPAddressObj) (v : IPVersion)
    (o : ManagedObject) : (set_entity_primary_ip e ip v o).mo_id = o.mo_id := by
  unfold set_entity_primary_ip
  split
  · exact with_primary_ip_mo_id o v _
  · rfl

theorem get_by_mo_id_map (l : List ManagedObject) (f : ManagedObject → ManagedObject)
    (hf : ∀ o, (f o).mo_id = o.mo_id) (i : Nat) :
    get_by_mo_id (l.map f) i = (get_by_mo_id l i).map f := by
  induction l with
  | nil => rfl
  | cons a rest ih =>
    simp only [get_by_mo_id, List.map_cons, List.find?]
    rw [hf a]
    cases h : (a.mo_id == i)
    · exact ih
    · rfl

theorem get_by_mo_id_of_mem (l : List ManagedObject) (e : ManagedObject)
    (hids : (l.map ManagedObject.mo_id).Nodup) (he : e ∈ l) :
    get_by_mo_id l e.mo_id = some e := by
  induction l with
  | nil => cases he
  | cons a rest ih =>
    simp only [List.map_cons, List.nodup_cons] at hids
    rcases List.mem_cons.1 he with rfl | hmem
    · simp [get_by_mo_id]
    · have hne : a.mo_id ≠ e.mo_id := by
        intro hcontra
        exact hids.1 (hcontra ▸ List.mem_map_of_mem ManagedObject.mo_id hmem)
      simp only [get_by_mo_id, List.find?]
      rw [show (a.mo_id == e.mo_id) = false from beq_false_of_ne hne]
      exact ih hids.2 hmem

/-- C2: per-policy behaviour of the arbitration block. Under "never" the
inventory is untouched; under "when-undefined" the entity's slot is set to
the IP object exactly when it is currently unset, all other objects being
left in place; under "always" the entity's slot is unconditionally set and
every other object whose slot of this version equals the IP object has that
slot cleared, unless the IP object is newly created. -/
theorem claim_C2_arbitration_policies (set_primary_ip_setting : SetPrimaryIPSetting)
    (inventory result : List ManagedObject) (e : ManagedObject) (ip : IPAddressObj)
    (v : IPVersion)
    (hids : (inventory.map ManagedObject.mo_id).Nodup)
    (he : e ∈ inventory)
    (hres : arbitrate_primary_ip set_primary_ip_setting inventory e ip v = result) :
    (set_primary_ip_setting = .never → result = inventory) ∧
    (set_primary_ip_setting = .when_undefined →
      (e.primary_ip v ≠ none → result = inventory) ∧
      (e.primary_ip v = none →
        (∀ o ∈ inventory, o.mo_id ≠ e.mo_id → o ∈ result) ∧
        get_by_mo_id result e.mo_id = some (e.with_primary_ip v (some ip.ip_id)))) ∧
    (set_primary_ip_setting = .always →
      get_by_mo_id result e.mo_id = some (e.with_primary_ip v (some ip.ip_id)) ∧
      (∀ o ∈ inventory, o.mo_id ≠ e.mo_id →
        (if ip.is_new = false ∧ o.primary_ip v = some ip.ip_id
          then o.with_primary_ip v none ∈ result
          else o ∈ result))) := by
  subst hres
  refine ⟨?_, ?_, ?_⟩
  · rintro rfl
    simp [arbitrate_primary_ip]
  · rintro rfl
    constructor
    · intro hne
      have hiso : (e.primary_ip v).isNone = false := by
        cases h : e.primary_ip v with
        | none => exact absurd h hne
        | some _ => rfl
      simp [arbitrate_primary_ip, hiso]
    · intro hnone
      have hiso : (e.primary_ip v).isNone = true := by simp [hnone]
      have hform : arbitrate_primary_ip .when_undefined inventory e ip v =
          inventory.map (set_entity_primary_ip e ip v) := by
        simp [arbitrate_primary_ip, hiso]
      rw [hform]
      constructor
      · intro o ho hne
        have : set_entity_primary_ip e ip v o = o := by
          simp [set_entity_primary_ip, hne]
        exact this ▸ List.mem_map_of_mem _ ho
      · rw [get_by_mo_id_map _ _ (set_entity_primary_ip_mo_id e ip v) e.mo_id,
          get_by_mo_id_of_mem inventory e hids he]
        simp [set_entity_primary_ip]
  · rintro rfl
    cases hnew : ip.is_new with
    | true =>
      have hform : arbitrate_primary_ip .always inventory e ip v =
          inventory.map (set_entity_primary_ip e ip v) := by
        simp [arbitrate_primary_ip, hnew]
      rw [hform]
      constructor
      · rw [get_by_mo_id_map _ _ (set_entity_primary_ip_mo_id e ip v) e.mo_id,
          get_by_mo_id_of_mem inventory e hids he]
        simp [set_entity_primary_ip]
      · intro o ho hne
        rw [if_neg (by simp [hnew])]
        have : set_entity_primary_ip e ip v o = o := by
          simp [set_entity_primary_ip, hne]
        exact this ▸ List.mem_map_of_mem _ ho
    | false =>
      have hform : arbitrate_primary_ip .always inventory e ip v =
          (inventory.map (clear_other_primary_ip e ip v)).map
            (set_entity_primary_ip e ip v) := by
        simp [arbitrate_primary_ip, hnew]
      rw [hform]
      constructor
      · rw [get_by_mo_id_map _ _ (set_entity_primary_ip_mo_id e ip v) e.mo_id,
          get_by_mo_id_map _ _ (clear_other_primary_ip_mo_id e ip v) e.mo_id,
          get_by_mo_id_of_mem inventory e hids he]
        simp [clear_other_primary_ip, set_entity_primary_ip]
      · intro o ho hne
        by_cases hslot : o.primary_ip v = some ip.ip_id
        · rw [if_pos ⟨rfl, hslot⟩]
          have h1 : clear_other_primary_ip e ip v o = o.with_primary_ip v none := by
            simp [clear_other_primary_ip, hne, hslot]
          have h2 : set_entity_primary_ip e ip v (o.with_primary_ip v none) =
              o.with_primary_ip v none := by
            simp [set_entity_primary_ip, with_primary_ip_mo_id, hne]
          exact h2 ▸ List.mem_map_of_mem _ (h1 ▸ List.mem_map_of_mem _ ho)
        · rw [if_neg (by simp [hslot])]
          have h1 : clear_other_primary_ip e ip v o = o := by
            simp [clear_other_primary_ip, hne, hslot]
          have h2 : set_entity_primary_ip e ip v o = o := by
            simp [set_entity_primary_ip, hne]
          exact h2 ▸ List.mem_map_of_mem _ (h1 ▸ List.mem_map_of_mem _ ho)

/-- A two-object inventory for evaluating the arbitration theorems: object
1 (a device) holds IP 7 as its primary IPv4, object 2 (a VM) has no primary
IPs. -/
def demo_arb_inventory : List ManagedObject :=
  [{ mo_id := 1, kind := .device, primary_ip4 := some 7, primary_ip6 := none },
   { mo_id := 2, kind := .vm, primary_ip4 := none, primary_ip6 := none }]

/-- The entity being processed in the arbitration examples: object 2. -/
def demo_arb_entity : ManagedObject :=
  { mo_id := 2, kind := .vm, primary_ip4 := none, primary_ip6 := none }

/-- The candidate NBIPAddress in the arbitration examples: IP 7, not newly
created in this run. -/
def demo_arb_ip : IPAddressObj := { ip_id := 7, is_new := false }

theorem claim_C2_arbitration_policies_witness :
    get_by_mo_id
        (arbitrate_primary_ip .always demo_arb_inventory demo_arb_entity demo_arb_ip .v4) 2 =
      some (demo_arb_entity.with_primary_ip .v4 (some 7)) := by
  have h := (claim_C2_arbitration_policies .always demo_arb_inventory
      (arbitrate_primary_ip .always demo_arb_inventory demo_arb_entity demo_arb_ip .v4)
      demo_arb_entity demo_arb_ip .v4 (by decide) (by decide) rfl).2.2 rfl
  exact h.1

theorem pairwise_imp_mem {α : Type} {R S : α → α → Prop} {l : List α}
    (h : ∀ a b, a ∈ l → b ∈ l → R a b → S a b) (hp : l.Pairwise R) : l.Pairwise S := by
  induction l with
  | nil => exact List.Pairwise.nil
  | cons a rest ih =>
    rcases List.pairwise_cons.mp hp with ⟨ha, hrest⟩
    refine List.pairwise_cons.mpr ⟨?_, ?_⟩
    · intro b hb
      exact h a b (List.mem_cons_self a rest) (List.mem_cons_of_mem a hb) (ha b hb)
    · exact ih (fun x y hx hy =>
        h x y (List.mem_cons_of_mem a hx) (List.mem_cons_of_mem a hy)) hrest

theorem pairwise_and {α : Type} {R S : α → α → Prop} {l : List α}
    (hR : l.Pairwise R) (hS : l.Pairwise S) : l.Pairwise fun a b => R a b ∧ S a b := by
  induction l with
  | nil => exact List.Pairwise.nil
  | cons a rest ih =>
    rcases List.pairwise_cons.mp hR with ⟨ha, hrest⟩
    rcases List.pairwise_cons.mp hS with ⟨hb, hrest2⟩
    exact List.pairwise_cons.mpr ⟨fun b hbm => ⟨ha b hbm, hb b hbm⟩, ih hrest hrest2⟩

theorem primary_ip_exclusive_map_set (inv : List ManagedObject) (e : ManagedObject)
    (ip : IPAddressObj) (v w : IPVersion)
    (hids : (inv.map ManagedObject.mo_id).Nodup)
    (hfree : ∀ o ∈ inv, o.mo_id ≠ e.mo_id → o.primary_ip v ≠ some ip.ip_id)
    (hex : primary_ip_exclusive inv w) :
    primary_ip_exclusive (inv.map (set_entity_primary_ip e ip v)) w := by
  unfold primary_ip_exclusive at hex ⊢
  rw [List.pairwise_map]
  have hpw : inv.Pairwise fun a b => a.mo_id ≠ b.mo_id := List.pairwise_map.mp hids
  refine pairwise_imp_mem (fun a b ha hb hab => ?_) (pairwise_and hex hpw)
  obtain ⟨hexab, hneab⟩ := hab
  rintro ⟨hsome, heq⟩
  by_cases hva : a.mo_id = e.mo_id
  · have hvb : b.mo_id ≠ e.mo_id := fun hc => hneab (hva.trans hc.symm)
    rw [set_entity_primary_ip, if_pos hva] at hsome heq
    rw [set_entity_primary_ip, if_neg hvb] at heq
    rw [with_primary_ip_primary_ip] at hsome heq
    by_cases hvw : v = w
    · subst hvw
      rw [if_pos rfl] at heq
      exact hfree b hb hvb heq.symm
    · rw [if_neg hvw] at hsome heq
      exact hexab ⟨hsome, heq⟩
  · by_cases hvb : b.mo_id = e.mo_id
    · rw [set_entity_primary_ip, if_neg hva] at hsome heq
      rw [set_entity_primary_ip, if_pos hvb] at heq
      rw [with_primary_ip_primary_ip] at heq
      by_cases hvw : v = w
      · subst hvw
        rw [if_pos rfl] at heq
        exact hfree a ha hva heq
      · rw [if_neg hvw] at heq
        exact hexab ⟨hsome, heq⟩
    · rw [set_entity_primary_ip, if_neg hva] at hsome heq
      rw [set_entity_primary_ip, if_neg hvb] at heq
      exact hexab ⟨hsome, heq⟩

theorem primary_ip_exclusive_map_clear (inv : List ManagedObject) (e : ManagedObject)
    (ip : IPAddressObj) (v w : IPVersion)
    (hex : primary_ip_exclusive inv w) :
    primary_ip_exclusive (inv.map (clear_other_primary_ip e ip v)) w := by
  unfold primary_ip_exclusive at hex ⊢
  rw [List.pairwise_map]
  refine pairwise_imp_mem (fun a b _ _ hab => ?_) hex
  rintro ⟨hsome, heq⟩
  have key : ∀ x : ManagedObject,
      (clear_other_primary_ip e ip v x).primary_ip w = x.primary_ip w ∨
      (clear_other_primary_ip e ip v x).primary_ip w = none := by
    intro x
    unfold clear_other_primary_ip
    split
    · exact Or.inl rfl
    · split
      · rw [with_primary_ip_primary_ip]
        by_cases hvw : v = w
        · rw [if_pos hvw]
          exact Or.inr rfl
        · rw [if_neg hvw]
          exact Or.inl rfl
      · exact Or.inl rfl
  rcases key a with ha2 | ha2
  · rcases key b with hb2 | hb2
    · rw [ha2] at hsome heq
      rw [hb2] at heq
      exact hab ⟨hsome, heq⟩
    · rw [ha2] at hsome heq
      rw [hb2] at heq
      rw [heq] at hsome
      simp at hsome
  · rw [ha2] at hsome
    simp at hsome

theorem clear_other_primary_ip_frees (e : ManagedObject) (ip : IPAddressObj) (v : IPVersion)
    (o : ManagedObject) (hne : o.mo_id ≠ e.mo_id) :
    (clear_other_primary_ip e ip v o).primary_ip v ≠ some ip.ip_id := by
  unfold clear_other_primary_ip
  rw [if_neg hne]
  by_cases hs : o.primary_ip v = some ip.ip_id
  · rw [if_pos hs, with_primary_ip_primary_ip, if_pos rfl]
    simp
  · rw [if_neg hs]
    exact hs

theorem map_mo_id_of_preserving (inv : List ManagedObject)
    (f : ManagedObject → ManagedObject) (hf : ∀ o, (f o).mo_id = o.mo_id) :
    (inv.map f).map ManagedObject.mo_id = inv.map ManagedObject.mo_id := by
  rw [List.map_map]
  exact List.map_congr_left (fun o _ => hf o)

/-- C1 counterexample: under the when-undefined policy the arbitration
block sets the entity's empty slot without clearing the existing owner, so
on this inventory - object 1 already holds IP 7 as primary IPv4 and the
entity object 2 has no primary IPv4 - exclusivity holds before arbitration
of IP 7 for object 2 and is violated after it. -/
theorem claim_C1_counterexample :
    primary_ip_exclusive demo_arb_inventory .v4 ∧
      ¬ primary_ip_exclusive
        (arbitrate_primary_ip .when_undefined demo_arb_inventory demo_arb_entity
          demo_arb_ip .v4) .v4 := by
  unfold primary_ip_exclusive
  constructor
  · decide
  · decide

/-- C1 amended: the arbitration block preserves primary-IP exclusivity (of
both IP versions) under the always and never policies - for always, given
that a newly created IP object is not yet referenced by anyone - and under
when-undefined only when the candidate IP is not already the primary of a
different object. -/
theorem claim_C1_exclusivity_amended (set_primary_ip_setting : SetPrimaryIPSetting)
    (inventory : List ManagedObject) (e : ManagedObject) (ip : IPAddressObj) (v : IPVersion)
    (hids : (inventory.map ManagedObject.mo_id).Nodup)
    (hnew : ip.is_new = true → ∀ o ∈ inventory, o.primary_ip v ≠ some ip.ip_id)
    (hwu : set_primary_ip_setting = .when_undefined →
      ∀ o ∈ inventory, o.mo_id ≠ e.mo_id → o.primary_ip v ≠ some ip.ip_id)
    (w : IPVersion) (hex : primary_ip_exclusive inventory w) :
    primary_ip_exclusive (arbitrate_primary_ip set_primary_ip_setting inventory e ip v) w := by
  cases set_primary_ip_setting with
  | never => simpa [arbitrate_primary_ip] using hex
  | when_undefined =>
    cases hslot : e.primary_ip v with
    | some x =>
      have hiso : (e.primary_ip v).isNone = false := by rw [hslot]; rfl
      simpa [arbitrate_primary_ip, hiso] using hex
    | none =>
      have hiso : (e.primary_ip v).isNone = true := by rw [hslot]; rfl
      have hform : arbitrate_primary_ip .when_undefined inventory e ip v =
          inventory.map (set_entity_primary_ip e ip v) := by
        simp [arbitrate_primary_ip, hiso]
      rw [hform]
      exact primary_ip_exclusive_map_set inventory e ip v w hids (hwu rfl) hex
  | always =>
    cases hnew2 : ip.is_new with
    | true =>
      have hform : arbitrate_primary_ip .always inventory e ip v =
          inventory.map (set_entity_primary_ip e ip v) := by
        simp [arbitrate_primary_ip, hnew2]
      rw [hform]
      exact primary_ip_exclusive_map_set inventory e ip v w hids
        (fun o ho _ => hnew hnew2 o ho) hex
    | false =>
      have hform : arbitrate_primary_ip .always inventory e ip v =
          (inventory.map (clear_other_primary_ip e ip v)).map
            (set_entity_primary_ip e ip v) := by
        simp [arbitrate_primary_ip, hnew2]
      rw [hform]
      refine primary_ip_exclusive_map_set _ e ip v w ?_ ?_
        (primary_ip_exclusive_map_clear inventory e ip v w hex)
      · rw [map_mo_id_of_preserving inventory _ (clear_other_primary_ip_mo_id e ip v)]
        exact hids
      · intro o2 ho2 hne
        rcases List.mem_map.mp ho2 with ⟨o, ho, rfl⟩
        exact clear_other_primary_ip_frees e ip v o
          (by rwa [clear_other_primary_ip_mo_id] at hne)

theorem claim_C1_exclusivity_amended_witness :
    primary_ip_exclusive
      (arbitrate_primary_ip .always demo_arb_inventory demo_arb_entity demo_arb_ip .v4)
      .v4 :=
  claim_C1_exclusivity_amended .always demo_arb_inventory demo_arb_entity demo_arb_ip .v4
    (by decide) (by decide) (by decide) .v4
    (by unfold primary_ip_exclusive; decide)

/-- What a NBDevice / NBVM data dict stores under primary_ip4 / primary_ip6
as read by get_object_based_on_primary_ip: either an embedded dict carrying
the address string, or the NetBox id of an NBIPAddress object. -/
inductive StoredPrimaryIP where
  | embedded (address : String)
  | ref (nb_id : Nat)
deriving DecidableEq, Repr

/-- The slice of a device/VM record that tier 3 of the matcher reads. -/
structure DeviceVMRecord where
  name : String
  primary_ip4 : Option StoredPrimaryIP
  primary_ip6 : Option StoredPrimaryIP
deriving DecidableEq, Repr

/-- The address portion of an address string: everything before the first
"/" (ip.split("/")[0]). -/
def address_portion (s : String) : String :=
  split_head '/' s

/-- The helper _matches_device_primary_ip (connection.py lines 384-398):
resolve the stored slot - an embedded value, or an NBIPAddress reference
looked up in the inventory's id-to-address table - and compare its address
portion with the needle. -/
def _matches_device_primary_ip (nb_ip_addresses : List (Nat × String))
    (device_primary_ip : Option StoredPrimaryIP) (ip_needle : Option String) : Bool :=
  match device_primary_ip, ip_needle with
  | some stored, some needle =>
    let ip : Option String :=
      match stored with
      | .embedded address => some address
      | .ref nb_id => nb_ip_addresses.lookup nb_id
    match ip with
    | some s => address_portion s == needle
    | none => false
  | _, _ => false

/-- The device loop of get_object_based_on_primary_ip (connection.py lines
412-422): for each record, the IPv4 slot is compared first and on a hit
the record is returned without checking its IPv6 slot; otherwise the IPv6
slot is compared before moving to the next record. -/
def primary_ip_scan (nb_ip_addresses : List (Nat × String))
    (needle4 needle6 : Option String) : List DeviceVMRecord → Option DeviceVMRecord
  | [] => none
  | device :: rest =>
    if _matches_device_primary_ip nb_ip_addresses device.primary_ip4 needle4 then some device
    else if _matches_device_primary_ip nb_ip_addresses device.primary_ip6 needle6 then
      some device
    else primary_ip_scan nb_ip_addresses needle4 needle6 rest

/-- get_object_based_on_primary_ip (connection.py lines 364-422). -/
def get_object_based_on_primary_ip (inventory : List DeviceVMRecord)
    (nb_ip_addresses : List (Nat × String))
    (primary_ip4 primary_ip6 : Option String) : Option DeviceVMRecord :=
  if primary_ip4 = none ∧ primary_ip6 = none then none
  else
    primary_ip_scan nb_ip_addresses (primary_ip4.map address_portion)
      (primary_ip6.map address_portion) inventory

/-- The tier-3 scan as the spec's §4.4 (and claim C3) word it: a first full
pass over all candidates comparing only primary_ip4 and, only if that pass
matched no candidate, a second full pass comparing primary_ip6. Written
from the spec's sentence, for comparison with
get_object_based_on_primary_ip. -/
def get_object_based_on_primary_ip_spec_two_pass (inventory : List DeviceVMRecord)
    (nb_ip_addresses : List (Nat × String))
    (primary_ip4 primary_ip6 : Option String) : Option DeviceVMRecord :=
  if primary_ip4 = none ∧ primary_ip6 = none then none
  else
    match inventory.find? (fun d =>
        _matches_device_primary_ip nb_ip_addresses d.primary_ip4
          (primary_ip4.map address_portion)) with
    | some d => some d
    | none =>
      inventory.find? (fun d =>
        _matches_device_primary_ip nb_ip_addresses d.primary_ip6
          (primary_ip6.map address_portion))

/-- A record whose only primary IP is an IPv6 address. -/
def c3_record_a : DeviceVMRecord :=
  { name := "vm-a", primary_ip4 := none, primary_ip6 := some (.embedded "fd00::1/64") }

/-- A record whose only primary IP is an IPv4 address. -/
def c3_record_b : DeviceVMRecord :=
  { name := "vm-b", primary_ip4 := some (.embedded "10.0.0.5/24"), primary_ip6 := none }

/-- C3 counterexample: the code performs one interleaved scan, not an IPv4
pass followed by an IPv6 pass. With record a (IPv6 fd00::1) stored before
record b (IPv4 10.0.0.5), searching for primary IPv4 10.0.0.5 and primary
IPv6 fd00::1 returns record a - its primary_ip6 matches during the single
scan - whereas the claimed two-pass order would return record b from the
full IPv4 pass. -/
theorem claim_C3_counterexample :
    get_object_based_on_primary_ip [c3_record_a, c3_record_b] []
        (some "10.0.0.5") (some "fd00::1") = some c3_record_a ∧
    get_object_based_on_primary_ip_spec_two_pass [c3_record_a, c3_record_b] []
        (some "10.0.0.5") (some "fd00::1") = some c3_record_b ∧
    c3_record_a ≠ c3_record_b := by
  refine ⟨?_, ?_, ?_⟩ <;> decide

/-- C3 amended: tier 3 performs a single scan over the stored records of
the requested type; each candidate's primary_ip4 is compared first and on a
hit the candidate is returned without checking its own primary_ip6,
otherwise its primary_ip6 is compared - so the first candidate in inventory
order matching on either version is returned, and a later candidate
matching on IPv4 does not take precedence over an earlier candidate
matching only on IPv6. -/
theorem claim_C3_interleaved_scan (inventory : List DeviceVMRecord)
    (nb_ip_addresses : List (Nat × String)) (primary_ip4 primary_ip6 : Option String) :
    get_object_based_on_primary_ip inventory nb_ip_addresses primary_ip4 primary_ip6 =
      (if primary_ip4 = none ∧ primary_ip6 = none then none
      else inventory.find? (fun d =>
        _matches_device_primary_ip nb_ip_addresses d.primary_ip4
          (primary_ip4.map address_portion) ||
        _matches_device_primary_ip nb_ip_addresses d.primary_ip6
          (primary_ip6.map address_portion))) := by
  unfold get_object_based_on_primary_ip
  by_cases h : primary_ip4 = none ∧ primary_ip6 = none
  · simp [h]
  · simp only [h, if_false]
    induction inventory with
    | nil => rfl
    | cons device rest ih =>
      by_cases h4 : _matches_device_primary_ip nb_ip_addresses device.primary_ip4
          (primary_ip4.map address_portion)
      · simp [primary_ip_scan, List.find?_cons, h4]
      · by_cases h6 : _matches_device_primary_ip nb_ip_addresses device.primary_ip6
            (primary_ip6.map address_portion)
        · simp [primary_ip_scan, List.find?_cons, h4, h6]
        · simp [primary_ip_scan, List.find?_cons, h4, h6, ih]

/-- The slice of an NBInterface / NBVMInterface record that the MAC
matcher reads: its MAC address and the object found under its
secondary_key field (data.device or data.virtual_machine). The owner is
identified by inventory id; none models a stored value that is not an
NBDevice/NBVM instance (the isinstance check of line 314), such as an
unresolved reference. -/
structure InterfaceRec where
  mac_address : Option String
  owner : Option Nat
deriving DecidableEq, Repr

/-- Whether grab(interface, "data.mac_address") is in mac_list
(line 311). -/
def interface_mac_in (interface : InterfaceRec) (mac_list : List String) : Bool :=
  match interface.mac_address with
  | some m => mac_list.contains m
  | none => false

/-- Incrementing the per-owner tally dict (lines 321-324): a new owner is
appended with count 1, an existing owner's count is incremented in place
(dict insertion order is preserved). -/
def tally_insert (d : List (Nat × Nat)) (k : Nat) : List (Nat × Nat) :=
  match d with
  | [] => [(k, 1)]
  | (k2, c) :: rest => if k2 = k then (k2, c + 1) :: rest else (k2, c) :: tally_insert rest k

/-- One iteration of the interface loop of get_object_based_on_macs
(lines 309-324): on a MAC hit, matching_object is overwritten with the
interface's owner value, and the owner is tallied only when that value is
an NBDevice/NBVM instance. -/
def mac_scan_step (mac_list : List String) (acc : List (Nat × Nat) × Option Nat)
    (interface : InterfaceRec) : List (Nat × Nat) × Option Nat :=
  if interface_mac_in interface mac_list then
    match interface.owner with
    | none => (acc.1, none)
    | some matching_object => (tally_insert acc.1 matching_object, some matching_object)
  else acc

/-- The interface loop of get_object_based_on_macs: the tally dict
objects_with_matching_macs together with the final matching_object
value. -/
def mac_scan (mac_list : List String) (interfaces : List InterfaceRec) :
    List (Nat × Nat) × Option Nat :=
  interfaces.foldl (mac_scan_step mac_list) ([], none)

/-- One comparison step when selecting the top tally entry: a strictly
larger tally displaces the current best, ties keep the earlier entry. -/
def top_pick (best : Option (Nat × Nat)) (kv : Nat × Nat) : Option (Nat × Nat) :=
  match best with
  | none => some kv
  | some b => if b.2 < kv.2 then some kv else some b

/-- The first element of sorted(keys, key=tally.get, reverse=True): the
earliest entry carrying the maximal tally, Python's sort being stable. -/
def top_candidate (d : List (Nat × Nat)) : Option (Nat × Nat) :=
  d.foldl top_pick none

/-- Removal of the top entry before selecting the second choice; tally
keys are unique, so removing by key removes exactly that entry. -/
def remove_key (d : List (Nat × Nat)) (k : Nat) : List (Nat × Nat) :=
  d.filter (fun kv => kv.1 != k)

/-- get_object_based_on_macs (connection.py lines 266-362). The ratio of
the two top tallies is formed in ℚ; Python's float division of the two
machine integers agrees with the exact rational comparison against 2.0 for
every pair of tallies below 2^52. -/
def get_object_based_on_macs (interfaces : List InterfaceRec)
    (mac_list : List String) : Option Nat :=
  if mac_list.isEmpty then none
  else
    let scanned := mac_scan mac_list interfaces
    let objects_with_matching_macs := scanned.1
    if objects_with_matching_macs.length = 1 ∧ scanned.2.isSome = true then
      some (objects_with_matching_macs.headD (0, 0)).1
    else if 1 < objects_with_matching_macs.length then
      match top_candidate objects_with_matching_macs with
      | none => none
      | some first_choice =>
        match top_candidate (remove_key objects_with_matching_macs first_choice.1) with
        | none => none
        | some second_choice =>
          if (2 : ℚ) ≤ (first_choice.2 : ℚ) / (second_choice.2 : ℚ) then
            some first_choice.1
          else none
    else none

/-- The number of interfaces whose MAC is in mac_list and whose owner is
object k. -/
def owner_match_count (mac_list : List String) (k : Nat) : List InterfaceRec → Nat
  | [] => 0
  | i :: rest =>
    (if interface_mac_in i mac_list ∧ i.owner = some k then 1 else 0) +
      owner_match_count mac_list k rest

theorem tally_insert_lookup_self (d : List (Nat × Nat)) (k : Nat) :
    (tally_insert d k).lookup k = some ((d.lookup k).getD 0 + 1) := by
  induction d with
  | nil => simp [tally_insert, List.lookup]
  | cons kv rest ih =>
    obtain ⟨k2, c⟩ := kv
    by_cases h : k2 = k
    · subst h
      simp [tally_insert, List.lookup]
    · have hb : (k == k2) = false := beq_eq_false_iff_ne.mpr (Ne.symm h)
      simp [tally_insert, h, List.lookup, hb, ih]

theorem tally_insert_lookup_other (d : List (Nat × Nat)) (k j : Nat) (hne : j ≠ k) :
    (tally_insert d k).lookup j = d.lookup j := by
  induction d with
  | nil =>
    have hb : (j == k) = false := beq_eq_false_iff_ne.mpr hne
    simp [tally_insert, List.lookup, hb]
  | cons kv rest ih =>
    obtain ⟨k2, c⟩ := kv
    by_cases h : k2 = k
    · subst h
      have hb : (j == k2) = false := beq_eq_false_iff_ne.mpr hne
      simp [tally_insert, List.lookup, hb]
    · cases hjk : (j == k2) with
      | true => simp [tally_insert, h, List.lookup, hjk]
      | false => simp [tally_insert, h, List.lookup, hjk, ih]

theorem tally_keys_tally_insert (d : List (Nat × Nat)) (k : Nat) :
    (tally_insert d k).map Prod.fst =
      if k ∈ d.map Prod.fst then d.map Prod.fst else d.map Prod.fst ++ [k] := by
  induction d with
  | nil => simp [tally_insert]
  | cons kv rest ih =>
    obtain ⟨k2, c⟩ := kv
    by_cases h : k2 = k
    · subst h
      simp [tally_insert]
    · by_cases h2 : k ∈ rest.map Prod.fst
      · simp [tally_insert, h, ih, h2, Ne.symm h]
      · simp [tally_insert, h, ih, h2, Ne.symm h]

theorem mem_tally_keys_insert (d : List (Nat × Nat)) (j k : Nat) :
    k ∈ (tally_insert d j).map Prod.fst ↔ k ∈ d.map Prod.fst ∨ k = j := by
  rw [tally_keys_tally_insert]
  by_cases h : j ∈ d.map Prod.fst
  · rw [if_pos h]
    exact ⟨Or.inl, fun h2 => h2.elim id (fun hk => hk ▸ h)⟩
  · rw [if_neg h]
    simp [List.mem_append]

theorem tally_keys_nodup_insert (d : List (Nat × Nat)) (k : Nat)
    (hnd : (d.map Prod.fst).Nodup) : ((tally_insert d k).map Prod.fst).Nodup := by
  rw [tally_keys_tally_insert]
  by_cases h : k ∈ d.map Prod.fst
  · rw [if_pos h]
    exact hnd
  · rw [if_neg h]
    refine List.Nodup.append hnd (List.nodup_singleton k) ?_
    intro a ha hb
    rw [List.mem_singleton] at hb
    exact h (hb ▸ ha)

theorem tally_insert_pos (d : List (Nat × Nat)) (k : Nat)
    (hpos : ∀ kv ∈ d, 0 < kv.2) : ∀ kv ∈ tally_insert d k, 0 < kv.2 := by
  induction d with
  | nil =>
    intro kv hkv
    rw [tally_insert, List.mem_singleton] at hkv
    subst hkv
    exact Nat.one_pos
  | cons a rest ih =>
    obtain ⟨k2, c⟩ := a
    intro kv hkv
    by_cases h : k2 = k
    · subst h
      rw [tally_insert, if_pos rfl] at hkv
      rcases List.mem_cons.mp hkv with rfl | hm
      · exact Nat.succ_pos c
      · exact hpos kv (List.mem_cons_of_mem _ hm)
    · rw [tally_insert, if_neg h] at hkv
      rcases List.mem_cons.mp hkv with rfl | hm
      · exact hpos (k2, c) (List.mem_cons_self _ _)
      · exact ih (fun x hx => hpos x (List.mem_cons_of_mem _ hx)) kv hm

theorem owner_match_count_perm (mac_list : List String) (k : Nat)
    {l1 l2 : List InterfaceRec} (h : l1.Perm l2) :
    owner_match_count mac_list k l1 = owner_match_count mac_list k l2 := by
  induction h with
  | nil => rfl
  | cons x _ ih => simp only [owner_match_count, ih]
  | swap x y l => simp only [owner_match_count]; omega
  | trans _ _ ih1 ih2 => exact ih1.trans ih2

theorem mac_scan_go_count (mac_list : List String) (k : Nat) (l : List InterfaceRec) :
    ∀ acc : List (Nat × Nat) × Option Nat,
      (((l.foldl (mac_scan_step mac_list) acc).1).lookup k).getD 0 =
        (acc.1.lookup k).getD 0 + owner_match_count mac_list k l := by
  induction l with
  | nil =>
    intro acc
    simp [owner_match_count]
  | cons i rest ih =>
    intro acc
    rw [List.foldl_cons]
    by_cases hm : interface_mac_in i mac_list
    · cases ho : i.owner with
      | none =>
        have hstep : mac_scan_step mac_list acc i = (acc.1, none) := by
          simp [mac_scan_step, hm, ho]
        rw [hstep, ih]
        simp [owner_match_count, hm, ho]
      | some j =>
        have hstep : mac_scan_step mac_list acc i = (tally_insert acc.1 j, some j) := by
          simp [mac_scan_step, hm, ho]
        rw [hstep, ih]
        by_cases hk : j = k
        · subst hk
          rw [tally_insert_lookup_self]
          have hcond : interface_mac_in i mac_list = true ∧ i.owner = some j := ⟨hm, ho⟩
          simp only [owner_match_count, if_pos hcond, Option.getD_some]
          omega
        · rw [tally_insert_lookup_other _ _ _ (Ne.symm hk)]
          have hcond : ¬(interface_mac_in i mac_list = true ∧ i.owner = some k) := by
            rintro ⟨-, hc⟩
            rw [ho] at hc
            exact hk (Option.some.inj hc)
          simp only [owner_match_count, if_neg hcond]
          omega
    · have hstep : mac_scan_step mac_list acc i = acc := by
        simp [mac_scan_step, hm]
      have hcond : ¬(interface_mac_in i mac_list = true ∧ i.owner = some k) := by
        rintro ⟨hc, -⟩
        exact hm hc
      rw [hstep, ih]
      simp only [owner_match_count, if_neg hcond]
      omega

theorem mac_scan_go_keys (mac_list : List String) (k : Nat) (l : List InterfaceRec) :
    ∀ acc : List (Nat × Nat) × Option Nat,
      (k ∈ ((l.foldl (mac_scan_step mac_list) acc).1).map Prod.fst ↔
        k ∈ acc.1.map Prod.fst ∨ 0 < owner_match_count mac_list k l) := by
  induction l with
  | nil =>
    intro acc
    simp [owner_match_count]
  | cons i rest ih =>
    intro acc
    rw [List.foldl_cons]
    by_cases hm : interface_mac_in i mac_list
    · cases ho : i.owner with
      | none =>
        have hstep : mac_scan_step mac_list acc i = (acc.1, none) := by
          simp [mac_scan_step, hm, ho]
        have hcond : ¬(interface_mac_in i mac_list = true ∧ i.owner = some k) := by
          rintro ⟨-, hc⟩
          rw [ho] at hc
          cases hc
        rw [hstep, ih]
        simp only [owner_match_count, if_neg hcond, Nat.zero_add]
      | some j =>
        have hstep : mac_scan_step mac_list acc i = (tally_insert acc.1 j, some j) := by
          simp [mac_scan_step, hm, ho]
        rw [hstep, ih, mem_tally_keys_insert]
        by_cases hk : j = k
        · subst hk
          have hcond : interface_mac_in i mac_list = true ∧ i.owner = some j := ⟨hm, ho⟩
          simp only [owner_match_count, if_pos hcond]
          constructor
          · intro _
            exact Or.inr (by omega)
          · intro _
            exact Or.inl (Or.inr (by trivial))
        · have hcond : ¬(interface_mac_in i mac_list = true ∧ i.owner = some k) := by
            rintro ⟨-, hc⟩
            rw [ho] at hc
            exact hk (Option.some.inj hc)
          simp only [owner_match_count, if_neg hcond, Nat.zero_add]
          constructor
          · rintro ((h2 | h2) | h2)
            · exact Or.inl h2
            · exact absurd h2 (Ne.symm hk)
            · exact Or.inr h2
          · rintro (h2 | h2)
            · exact Or.inl (Or.inl h2)
            · exact Or.inr h2
    · have hstep : mac_scan_step mac_list acc i = acc := by
        simp [mac_scan_step, hm]
      have hcond : ¬(interface_mac_in i mac_list = true ∧ i.owner = some k) := by
        rintro ⟨hc, -⟩
        exact hm hc
      rw [hstep, ih]
      simp only [owner_match_count, if_neg hcond, Nat.zero_add]

theorem mac_scan_go_nodup (mac_list : List String) (l : List InterfaceRec) :
    ∀ acc : List (Nat × Nat) × Option Nat, (acc.1.map Prod.fst).Nodup →
      (((l.foldl (mac_scan_step mac_list) acc).1).map Prod.fst).Nodup := by
  induction l with
  | nil =>
    intro acc h
    exact h
  | cons i rest ih =>
    intro acc h
    rw [List.foldl_cons]
    refine ih _ ?_
    unfold mac_scan_step
    split
    · cases ho : i.owner with
      | none => simpa [ho] using h
      | some j => simpa [ho] using tally_keys_nodup_insert acc.1 j h
    · exact h

theorem mac_scan_go_pos (mac_list : List String) (l : List InterfaceRec) :
    ∀ acc : List (Nat × Nat) × Option Nat, (∀ kv ∈ acc.1, 0 < kv.2) →
      ∀ kv ∈ (l.foldl (mac_scan_step mac_list) acc).1, 0 < kv.2 := by
  induction l with
  | nil =>
    intro acc h
    exact h
  | cons i rest ih =>
    intro acc h
    rw [List.foldl_cons]
    refine ih _ ?_
    unfold mac_scan_step
    split
    · cases ho : i.owner with
      | none => simpa [ho] using h
      | some j => simpa [ho] using tally_insert_pos acc.1 j h
    · exact h

theorem mac_scan_go_mo (mac_list : List String) (l : List InterfaceRec)
    (hv : ∀ i ∈ l, i.owner.isSome = true) :
    ∀ acc : List (Nat × Nat) × Option Nat,
      (∀ k, acc.2 = some k → k ∈ acc.1.map Prod.fst) → (acc.2 = none → acc.1 = []) →
      ((∀ k, (l.foldl (mac_scan_step mac_list) acc).2 = some k →
          k ∈ ((l.foldl (mac_scan_step mac_list) acc).1).map Prod.fst) ∧
        ((l.foldl (mac_scan_step mac_list) acc).2 = none →
          (l.foldl (mac_scan_step mac_list) acc).1 = [])) := by
  induction l with
  | nil =>
    intro acc h1 h2
    exact ⟨h1, h2⟩
  | cons i rest ih =>
    intro acc h1 h2
    rw [List.foldl_cons]
    have hvi : i.owner.isSome = true := hv i (List.mem_cons_self _ _)
    have hvrest : ∀ x ∈ rest, x.owner.isSome = true :=
      fun x hx => hv x (List.mem_cons_of_mem _ hx)
    by_cases hm : interface_mac_in i mac_list
    · cases ho : i.owner with
      | none =>
        rw [ho] at hvi
        cases hvi
      | some j =>
        have hstep : mac_scan_step mac_list acc i = (tally_insert acc.1 j, some j) := by
          simp [mac_scan_step, hm, ho]
        rw [hstep]
        refine (ih hvrest) _ ?_ ?_
        · intro k hk
          have hjk : j = k := Option.some.inj hk
          subst hjk
          exact (mem_tally_keys_insert acc.1 j j).mpr (Or.inr rfl)
        · intro hc
          cases hc
    · have hstep : mac_scan_step mac_list acc i = acc := by
        simp [mac_scan_step, hm]
      rw [hstep]
      exact (ih hvrest) _ h1 h2

theorem mac_scan_count (mac_list : List String) (interfaces : List InterfaceRec) (k : Nat) :
    (((mac_scan mac_list interfaces).1).lookup k).getD 0 =
      owner_match_count mac_list k interfaces := by
  unfold mac_scan
  rw [mac_scan_go_count]
  simp [List.lookup]

theorem mac_scan_mem_keys (mac_list : List String) (interfaces : List InterfaceRec) (k : Nat) :
    k ∈ ((mac_scan mac_list interfaces).1).map Prod.fst ↔
      0 < owner_match_count mac_list k interfaces := by
  unfold mac_scan
  rw [mac_scan_go_keys]
  simp

theorem mac_scan_keys_nodup (mac_list : List String) (interfaces : List InterfaceRec) :
    (((mac_scan mac_list interfaces).1).map Prod.fst).Nodup := by
  unfold mac_scan
  exact mac_scan_go_nodup mac_list interfaces ([], none) (by simp)

theorem mac_scan_pos (mac_list : List String) (interfaces : List InterfaceRec) :
    ∀ kv ∈ (mac_scan mac_list interfaces).1, 0 < kv.2 := by
  unfold mac_scan
  exact mac_scan_go_pos mac_list interfaces ([], none) (by intro kv h; cases h)

theorem mac_scan_mo (mac_list : List String) (interfaces : List InterfaceRec)
    (hv : ∀ i ∈ interfaces, i.owner.isSome = true) :
    (∀ k, (mac_scan mac_list interfaces).2 = some k →
      k ∈ ((mac_scan mac_list interfaces).1).map Prod.fst) ∧
    ((mac_scan mac_list interfaces).2 = none → (mac_scan mac_list interfaces).1 = []) := by
  unfold mac_scan
  exact mac_scan_go_mo mac_list interfaces hv ([], none)
    (fun k hk => by cases hk) (fun _ => rfl)

theorem mac_scan_step_nil_mac (acc : List (Nat × Nat) × Option Nat) (i : InterfaceRec) :
    mac_scan_step [] acc i = acc := by
  have hf : interface_mac_in i [] = false := by
    unfold interface_mac_in
    cases i.mac_address <;> rfl
  simp [mac_scan_step, hf]

theorem mac_scan_nil_mac (interfaces : List InterfaceRec) :
    mac_scan [] interfaces = ([], none) := by
  unfold mac_scan
  induction interfaces with
  | nil => rfl
  | cons i rest ih =>
    rw [List.foldl_cons, mac_scan_step_nil_mac]
    exact ih

theorem mac_list_ne_nil_of_count_pos (mac_list : List String) (k : Nat)
    (l : List InterfaceRec) (h : 0 < owner_match_count mac_list k l) : mac_list ≠ [] := by
  intro hnil
  subst hnil
  induction l with
  | nil => simp [owner_match_count] at h
  | cons i rest ih =>
    have hf : interface_mac_in i [] = false := by
      unfold interface_mac_in
      cases i.mac_address <;> rfl
    simp only [owner_match_count, hf] at h
    exact ih (by simpa using h)

theorem top_pick_cases (best : Option (Nat × Nat)) (kv : Nat × Nat) :
    top_pick best kv = some kv ∨ top_pick best kv = best := by
  cases best with
  | none => exact Or.inl rfl
  | some b =>
    by_cases h : b.2 < kv.2
    · exact Or.inl (by simp [top_pick, h])
    · exact Or.inr (by simp [top_pick, h])

theorem top_candidate_go_mem (d : List (Nat × Nat)) :
    ∀ best x, d.foldl top_pick best = some x → x ∈ d ∨ best = some x := by
  induction d with
  | nil =>
    intro best x h
    exact Or.inr h
  | cons kv rest ih =>
    intro best x h
    rw [List.foldl_cons] at h
    rcases ih _ x h with hx | hx
    · exact Or.inl (List.mem_cons_of_mem _ hx)
    · rcases top_pick_cases best kv with hc | hc
      · rw [hc] at hx
        exact Or.inl (List.mem_cons.mpr (Or.inl (Option.some.inj hx).symm))
      · rw [hc] at hx
        exact Or.inr hx

theorem top_candidate_go_max (d : List (Nat × Nat)) :
    ∀ best x, d.foldl top_pick best = some x →
      (∀ kv ∈ d, kv.2 ≤ x.2) ∧ (∀ b, best = some b → b.2 ≤ x.2) := by
  induction d with
  | nil =>
    intro best x h
    refine ⟨fun kv hkv => absurd hkv (List.not_mem_nil kv), fun b hb => ?_⟩
    rw [hb] at h
    have hbx : b = x := Option.some.inj h
    subst hbx
    exact le_rfl
  | cons kv rest ih =>
    intro best x h
    rw [List.foldl_cons] at h
    obtain ⟨hrest, hinit⟩ := ih _ x h
    have hkv : kv.2 ≤ x.2 := by
      cases best with
      | none => exact hinit kv rfl
      | some b =>
        by_cases hlt : b.2 < kv.2
        · exact hinit kv (by simp [top_pick, hlt])
        · exact (Nat.le_of_not_lt hlt).trans (hinit b (by simp [top_pick, hlt]))
    refine ⟨fun kv2 hkv2 => ?_, fun b hb => ?_⟩
    · rcases List.mem_cons.mp hkv2 with rfl | hm
      · exact hkv
      · exact hrest kv2 hm
    · subst hb
      by_cases hlt : b.2 < kv.2
      · exact (Nat.le_of_lt hlt).trans (hinit kv (by simp [top_pick, hlt]))
      · exact hinit b (by simp [top_pick, hlt])

theorem top_candidate_mem (d : List (Nat × Nat)) (x : Nat × Nat)
    (h : top_candidate d = some x) : x ∈ d := by
  rcases top_candidate_go_mem d none x h with hx | hx
  · exact hx
  · cases hx

theorem top_candidate_max (d : List (Nat × Nat)) (x : Nat × Nat)
    (h : top_candidate d = some x) : ∀ kv ∈ d, kv.2 ≤ x.2 :=
  (top_candidate_go_max d none x h).1

theorem assoc_eq_singleton (d : List (Nat × Nat)) (o c : Nat)
    (hnd : (d.map Prod.fst).Nodup)
    (ho : d.lookup o = some c)
    (hkeys : ∀ k ∈ d.map Prod.fst, k = o) : d = [(o, c)] := by
  cases d with
  | nil => cases ho
  | cons kv rest =>
    obtain ⟨k2, v⟩ := kv
    have hk2 : k2 = o := hkeys k2 (by simp)
    subst hk2
    have hv : v = c := by
      simpa [List.lookup] using ho
    subst hv
    cases rest with
    | nil => rfl
    | cons kv2 rest2 =>
      exfalso
      have hk3 : kv2.1 = k2 := hkeys kv2.1 (by simp)
      simp only [List.map_cons, List.nodup_cons] at hnd
      apply hnd.1
      rw [← hk3]
      exact List.mem_cons_self kv2.1 _

theorem ratio_ge_two_iff (c1 c2 : Nat) (h : 0 < c2) :
    ((2 : ℚ) ≤ (c1 : ℚ) / (c2 : ℚ)) ↔ 2 * c2 ≤ c1 := by
  rw [le_div_iff₀ (by exact_mod_cast h)]
  constructor
  · intro hx
    exact_mod_cast hx
  · intro hx
    exact_mod_cast hx

/-- C4: MAC-tier resolution of get_object_based_on_macs. With every
interface owned by a ManagedObject (the data model's ownership guarantee),
for the tally t produced by the interface scan: a tally with exactly one
owner makes that owner the result regardless of interface scan order; with
two or more tallied owners, the top entry fc (of maximal tally) is
returned exactly when its tally is at least twice the second entry's tally
(the exact form of the ℚ ratio test against 2.0); with an empty tally
nothing is returned. -/
theorem claim_C4_mac_tier (interfaces : List InterfaceRec) (mac_list : List String)
    (t : List (Nat × Nat)) (mo : Option Nat)
    (hv : ∀ i ∈ interfaces, i.owner.isSome = true)
    (ht : mac_scan mac_list interfaces = (t, mo)) :
    (∀ o c, t = [(o, c)] →
      ∀ l2 : List InterfaceRec, l2.Perm interfaces →
        get_object_based_on_macs l2 mac_list = some o) ∧
    (∀ fc sc, 1 < t.length →
      top_candidate t = some fc →
      top_candidate (remove_key t fc.1) = some sc →
      (∀ kv ∈ t, kv.2 ≤ fc.2) ∧
      get_object_based_on_macs interfaces mac_list =
        (if 2 * sc.2 ≤ fc.2 then some fc.1 else none)) ∧
    (t = [] → get_object_based_on_macs interfaces mac_list = none) := by
  refine ⟨?_, ?_, ?_⟩
  · -- (a) a single tallied owner is returned, for any permutation of the scan
    intro o c hte l2 hperm
    have hcount : ∀ k, owner_match_count mac_list k interfaces = (t.lookup k).getD 0 := by
      intro k
      have h := mac_scan_count mac_list interfaces k
      rw [ht] at h
      exact h.symm
    have hco : owner_match_count mac_list o interfaces = c := by
      rw [hcount o, hte]
      simp [List.lookup]
    have hcpos : 0 < c := by
      have h := mac_scan_pos mac_list interfaces
      rw [ht] at h
      exact h (o, c) (by rw [hte]; exact List.mem_singleton_self _)
    have hzero : ∀ k, k ≠ o → owner_match_count mac_list k interfaces = 0 := by
      intro k hk
      have hb : (k == o) = false := beq_eq_false_iff_ne.mpr hk
      rw [hcount k, hte]
      simp [List.lookup, hb]
    have hcnt2 : ∀ k, owner_match_count mac_list k l2 =
        owner_match_count mac_list k interfaces :=
      fun k => owner_match_count_perm mac_list k hperm
    have hv2 : ∀ i ∈ l2, i.owner.isSome = true := fun i hi => hv i (hperm.subset hi)
    have hkeys2 : ∀ k ∈ ((mac_scan mac_list l2).1).map Prod.fst, k = o := by
      intro k hk
      by_contra hko
      have := (mac_scan_mem_keys mac_list l2 k).mp hk
      rw [hcnt2 k, hzero k hko] at this
      exact Nat.lt_irrefl 0 this
    have hlookup2 : ((mac_scan mac_list l2).1).lookup o = some c := by
      have h := mac_scan_count mac_list l2 o
      rw [hcnt2 o, hco] at h
      cases hcase : ((mac_scan mac_list l2).1).lookup o with
      | none =>
        rw [hcase] at h
        simp at h
        omega
      | some x =>
        rw [hcase] at h
        simp at h
        rw [h]
    have ht2 : (mac_scan mac_list l2).1 = [(o, c)] :=
      assoc_eq_singleton _ o c (mac_scan_keys_nodup mac_list l2) hlookup2 hkeys2
    have hmo2 : (mac_scan mac_list l2).2 = some o := by
      obtain ⟨hm1, hm2⟩ := mac_scan_mo mac_list l2 hv2
      cases hmo : (mac_scan mac_list l2).2 with
      | none =>
        have := hm2 hmo
        rw [ht2] at this
        cases this
      | some k =>
        have hkk := hm1 k hmo
        rw [ht2] at hkk
        simp at hkk
        rw [hkk]
    have hemp : mac_list.isEmpty = false := by
      cases hml : mac_list with
      | nil =>
        exfalso
        have hne := mac_list_ne_nil_of_count_pos mac_list o interfaces (by omega)
        exact hne hml
      | cons a as => rfl
    simp [get_object_based_on_macs, hemp, ht2, hmo2]
  · -- (b) two or more tallied owners: the ratio rule decides
    intro fc sc hlen hfc hsc
    have hmax := top_candidate_max t fc hfc
    have hscmem : sc ∈ t := List.mem_of_mem_filter (top_candidate_mem _ sc hsc)
    have hpos : 0 < sc.2 := by
      have h := mac_scan_pos mac_list interfaces
      rw [ht] at h
      exact h sc hscmem
    have hemp : mac_list.isEmpty = false := by
      cases hml : mac_list with
      | cons a as => rfl
      | nil =>
        exfalso
        have ht3 := ht
        rw [hml, mac_scan_nil_mac] at ht3
        injection ht3 with h1 h2
        rw [← h1] at hlen
        simp at hlen
    have hnot1 : ¬(t.length = 1 ∧ mo.isSome = true) := by
      rintro ⟨h1, -⟩
      omega
    refine ⟨hmax, ?_⟩
    simp only [get_object_based_on_macs, ht, hemp, Bool.false_eq_true, if_false,
      if_neg hnot1, if_pos hlen, hfc, hsc]
    exact if_congr (ratio_ge_two_iff fc.2 sc.2 hpos) rfl rfl
  · -- (c) an empty tally yields no result
    intro hte
    by_cases hemp : mac_list.isEmpty
    · simp [get_object_based_on_macs, hemp]
    · simp [get_object_based_on_macs, ht, hte, hemp]

/-- Fourteen matching interfaces: ten owned by object 1 and four owned by
object 2, producing the spec's example tallies (10, 4). -/
def c4_interfaces_a : List InterfaceRec :=
  List.replicate 10 { mac_address := some "aa:bb", owner := some 1 } ++
    List.replicate 4 { mac_address := some "aa:bb", owner := some 2 }

/-- Sixteen matching interfaces: ten owned by object 1 and six owned by
object 2, producing the spec's example tallies (10, 6). -/
def c4_interfaces_b : List InterfaceRec :=
  List.replicate 10 { mac_address := some "aa:bb", owner := some 1 } ++
    List.replicate 6 { mac_address := some "aa:bb", owner := some 2 }

theorem claim_C4_mac_tier_witness :
    get_object_based_on_macs c4_interfaces_a ["aa:bb"] = some 1 ∧
    get_object_based_on_macs c4_interfaces_b ["aa:bb"] = none := by
  constructor
  · have h := (claim_C4_mac_tier c4_interfaces_a ["aa:bb"] [(1, 10), (2, 4)] (some 2)
      (by decide) (by decide)).2.1 (1, 10) (2, 4) (by decide) (by decide) (by decide)
    simpa using h.2
  · have h := (claim_C4_mac_tier c4_interfaces_b ["aa:bb"] [(1, 10), (2, 6)] (some 2)
      (by decide) (by decide)).2.1 (1, 10) (2, 6) (by decide) (by decide) (by decide)
    simpa using h.2

/-- Updating one key of an embedded Python dict: insertion order is
preserved and an existing key is rebound in place. -/
def dict_set {β : Type} (d : List (String × β)) (k : String) (v : β) :
    List (String × β) :=
  match d with
  | [] => [(k, v)]
  | (k2, v2) :: rest => if k2 = k then (k, v) :: rest else (k2, v2) :: dict_set rest k v

/-- The single value returned by get_object_relation for a non-tag relation
and no fallback, as get_site_name consumes it (the site relations are never
tag relations, so the tags arm is unreachable there). -/
def single_relation_value (name relation : String) (rules : List RelationRule) :
    Option String :=
  match get_object_relation name relation rules none with
  | .single v _ => v
  | .tags _ => none

/-- The settings fields of the handler that the embedded pipeline reads;
permitted embeds permitted_subnets.permitted(ip_addr, interface_name). -/
structure Settings where
  strip_host_domain_name : Bool
  strip_vm_domain_name : Bool
  set_vm_name_to_uuid : Bool
  host_include_filter : NameFilter
  host_exclude_filter : NameFilter
  vm_include_filter : NameFilter
  vm_exclude_filter : NameFilter
  host_site_relation : List RelationRule
  cluster_site_relation : List RelationRule
  permitted : String → String → Bool

/-- The read-only per-run context of host/VM processing: the settings, the
handler's default site name (self.site_name), the permitted-cluster and
cluster-host tables built during add_cluster, the longest-prefix lookup
return_longest_matching_prefix_for_ip (a SourceBase helper defined outside
this source file) abstracted as the prefix length it reports for an
address and an optional site scope, and normalize_mac_address
(module.common.support) abstracted as a function. -/
structure HandlerConfig where
  settings : Settings
  site_name : String
  permitted_clusters : List (String × String)
  cluster_host_map : List (String × List String)
  longest_matching_prefixlen : String → Option String → Option Nat
  normalize_mac : String → Option String

/-- An inventory mutation issued by the pipeline; the claims only examine
the identity of the upserted entity, its scope, and the primary IPs handed
to matching and arbitration. -/
inductive InventoryEvent where
  | device_upserted (name site : String) (p_ipv4 p_ipv6 : Option String)
  | vm_upserted (name cluster : String) (p_ipv4 p_ipv6 : Option String)
deriving DecidableEq, Repr

/-- The handler's mutable per-run state: the processed-name registries and
the log of inventory mutations. -/
structure RunState where
  processed_host_names : List (String × List String)
  processed_vm_names : List (String × List String)
  inventory_log : List InventoryEvent
deriving DecidableEq, Repr

/-- How add_host / add_virtual_machine finished for one record. -/
inductive EntityOutcome where
  | skipped_no_cluster
  | skipped_not_permitted
  | skipped_duplicate_warning
  | skipped_by_name_filter
  | processed
deriving DecidableEq, Repr

/-- get_site_name for an NBCluster (connection.py lines 225-264): the
cluster_site_relation value, with the handler's default site as
fallback. -/
def get_site_name_for_cluster (cfg : HandlerConfig) (object_name : String) : String :=
  match single_relation_value object_name "cluster_site_relation"
      cfg.settings.cluster_site_relation with
  | some s => s
  | none => cfg.site_name

/-- get_site_name for an NBDevice: host_site_relation first, then the
cluster site for the host's cluster, then the default site. -/
def get_site_name_for_device (cfg : HandlerConfig) (object_name cluster_name : String) :
    String :=
  match single_relation_value object_name "host_site_relation"
      cfg.settings.host_site_relation with
  | some s => s
  | none => get_site_name_for_cluster cfg cluster_name

/-- get_cluster_for_host (connection.py lines 476-480): the first cluster
of the map whose host list contains the hostname. -/
def get_cluster_for_host (cluster_host_map : List (String × List String))
    (hostname : String) : Option String :=
  match cluster_host_map with
  | [] => none
  | (cluster, hosts) :: rest =>
    if hosts.contains hostname then some cluster
    else get_cluster_for_host rest hostname

/-- IP enrichment with the longest matching prefix length: with a site, the
site-scoped lookup runs first and the global lookup is the fallback
(add_virtual_machine lines 1108-1116); without a site only the global
lookup runs (add_host lines 946-951). On a hit the prefix length is
appended to the address. -/
def enrich_with_prefixlen (cfg : HandlerConfig) (ip_addr : String)
    (site : Option String) : String :=
  let matched :=
    match site with
    | some sn =>
      match cfg.longest_matching_prefixlen ip_addr (some sn) with
      | some p => some p
      | none => cfg.longest_matching_prefixlen ip_addr none
    | none => cfg.longest_matching_prefixlen ip_addr none
  match matched with
  | some p => ip_addr ++ "/" ++ toString p
  | none => ip_addr

/-- The fields of an OpenStack hypervisor record that add_host reads. -/
structure HypervisorRec where
  name : String
  service_host : String
  status : String
  host_ip : String
deriving DecidableEq, Repr

/-- The name under which add_host processes a hypervisor (lines 834-837):
the first domain component when strip_host_domain_name is set. -/
def host_entity_name (cfg : HandlerConfig) (obj : HypervisorRec) : String :=
  if cfg.settings.strip_host_domain_name then split_head '.' obj.name else obj.name

/-- The site scope a hypervisor record resolves to, provided its cluster
resolves and is permitted (the checks of lines 848-869). -/
def host_scope (cfg : HandlerConfig) (obj : HypervisorRec) : Option String :=
  match get_cluster_for_host cfg.cluster_host_map obj.service_host with
  | none => none
  | some cluster_name =>
    if (cfg.permitted_clusters.lookup cluster_name).isSome then
      some (get_site_name_for_device cfg (host_entity_name cfg obj) cluster_name)
    else none

/-- add_host (connection.py lines 815-965). Collected data that only
populates host_data fields no claim examines (manufacturer, model,
platform, status, tenant, tags) is represented by the upsert event
carrying the name, the site and the primary IPs handed to
add_device_vm_to_inventory (for a host, the enriched host_ip as primary
IPv4 and no primary IPv6). -/
def add_host (cfg : HandlerConfig) (s : RunState) (obj : HypervisorRec) :
    EntityOutcome × RunState :=
  let name := host_entity_name cfg obj
  match get_cluster_for_host cfg.cluster_host_map obj.service_host with
  | none => (.skipped_no_cluster, s)
  | some cluster_name =>
    if (cfg.permitted_clusters.lookup cluster_name).isSome then
      let site_name := get_site_name_for_device cfg name cluster_name
      if name ∈ (s.processed_host_names.lookup site_name).getD [] then
        (.skipped_duplicate_warning, s)
      else
        let new_names := ((s.processed_host_names.lookup site_name).getD []) ++ [name]
        let s1 :=
          { s with processed_host_names := dict_set s.processed_host_names site_name new_names }
        if passes_filter name cfg.settings.host_include_filter
            cfg.settings.host_exclude_filter = false then
          (.skipped_by_name_filter, s1)
        else
          let ip_addr := enrich_with_prefixlen cfg obj.host_ip none
          let ev := InventoryEvent.device_upserted name site_name (some ip_addr) none
          (.processed, { s1 with inventory_log := s1.inventory_log ++ [ev] })
    else (.skipped_not_permitted, s)

/-- One address entry of an OpenStack server network: addr, version and
OS-EXT-IPS-MAC:mac_addr. -/
structure OSAddressRec where
  addr : String
  ip_version : Nat
  mac_addr : String
deriving DecidableEq, Repr

/-- The fields of an OpenStack server record that add_virtual_machine
reads; addresses holds, per network name, the declared address list in
source iteration order. -/
structure ServerRec where
  name : String
  uuid : String
  availability_zone : String
  status : String
  addresses : List (String × List OSAddressRec)
deriving DecidableEq, Repr

/-- The VM interface dict built per address (lines 1124-1130). -/
structure VMNicData where
  nic_name : String
  mac_address : Option String
  description : String
  enabled : Bool
deriving DecidableEq, Repr

/-- The interface name built for the count-th network (line 1123; unquote
is the identity on the names considered here). -/
def nic_full_name (count : Nat) (network : String) : String :=
  "vNIC" ++ toString count ++ " (" ++ network ++ ")"

/-- The accumulator of the address-collection loop of add_virtual_machine
(lines 1098-1134). -/
structure CollectedNics where
  vm_primary_ip4 : Option String
  vm_primary_ip6 : Option String
  vm_nic_dict : List (String × VMNicData)
  nic_ips : List (String × List String)
deriving DecidableEq, Repr

/-- Processing of one address of one network (lines 1107-1134): the
enriched address is appended to the network's nic_ips entry and overwrites
the running primary of its IP version unconditionally; the network's
interface entry is (re)bound only when the permitted-subnet policy accepts
the address. -/
def process_address (cfg : HandlerConfig) (site_name network : String) (count : Nat)
    (acc : CollectedNics) (address : OSAddressRec) : CollectedNics :=
  let ip_addr := enrich_with_prefixlen cfg address.addr (some site_name)
  let ips1 := ((acc.nic_ips.lookup network).getD []) ++ [ip_addr]
  let acc1 := { acc with nic_ips := dict_set acc.nic_ips network ips1 }
  let acc2 :=
    if address.ip_version = 4 then { acc1 with vm_primary_ip4 := some ip_addr } else acc1
  let acc3 :=
    if address.ip_version = 6 then { acc2 with vm_primary_ip6 := some ip_addr } else acc2
  let full_name := nic_full_name count network
  let vm_nic_data : VMNicData :=
    { nic_name := full_name
      mac_address := cfg.normalize_mac address.mac_addr
      description := full_name
      enabled := true }
  if cfg.settings.permitted ip_addr full_name then
    { acc3 with vm_nic_dict := dict_set acc3.vm_nic_dict network vm_nic_data }
  else acc3

/-- The network loop (lines 1104-1134): count is incremented once per
network and the network's nic_ips entry is reset to the empty list before
its addresses are processed. -/
def collect_vm_nics_go (cfg : HandlerConfig) (site_name : String) :
    List (String × List OSAddressRec) → Nat → CollectedNics → CollectedNics
  | [], _, acc => acc
  | (network, addresses) :: rest, count, acc =>
    let count1 := count + 1
    let acc1 := { acc with nic_ips := dict_set acc.nic_ips network [] }
    let acc2 := addresses.foldl (process_address cfg site_name network count1) acc1
    collect_vm_nics_go cfg site_name rest count1 acc2

/-- The whole address-collection phase of add_virtual_machine. -/
def collect_vm_nics (cfg : HandlerConfig) (site_name : String)
    (networks : List (String × List OSAddressRec)) : CollectedNics :=
  collect_vm_nics_go cfg site_name networks 0
    { vm_primary_ip4 := none, vm_primary_ip6 := none, vm_nic_dict := [], nic_ips := [] }

/-- The name under which add_virtual_machine processes a server (lines
987-994): domain-stripped, or the server uuid when set_vm_name_to_uuid is
set. -/
def vm_entity_name (cfg : HandlerConfig) (obj : ServerRec) : String :=
  let name0 := if cfg.settings.strip_vm_domain_name then split_head '.' obj.name else obj.name
  if cfg.settings.set_vm_name_to_uuid then obj.uuid else name0

/-- The cluster name a server resolves to (lines 1001-1005): the
availability zone, domain-stripped per strip_host_domain_name. -/
def vm_cluster_name (cfg : HandlerConfig) (obj : ServerRec) : String :=
  if cfg.settings.strip_host_domain_name then split_head '.' obj.availability_zone
  else obj.availability_zone

/-- add_virtual_machine (connection.py lines 977-1140). Collected data
that only populates vm_data fields no claim examines (platform, disk,
memory, vcpus, comments, tenant, custom fields) is represented by the
upsert event carrying the name, the cluster and the primary IPs handed to
add_device_vm_to_inventory. The availability zone is present on the
records modelled here, so the line-1008 None check cannot fire. -/
def add_virtual_machine (cfg : HandlerConfig) (s : RunState) (obj : ServerRec) :
    EntityOutcome × RunState :=
  let name := vm_entity_name cfg obj
  let cluster_name := vm_cluster_name cfg obj
  if (cfg.permitted_clusters.lookup cluster_name).isSome then
    if name ∈ (s.processed_vm_names.lookup cluster_name).getD [] then
      (.skipped_duplicate_warning, s)
    else
      let new_names := ((s.processed_vm_names.lookup cluster_name).getD []) ++ [name]
      let s1 :=
        { s with processed_vm_names := dict_set s.processed_vm_names cluster_name new_names }
      if passes_filter name cfg.settings.vm_include_filter
          cfg.settings.vm_exclude_filter = false then
        (.skipped_by_name_filter, s1)
      else
        let site_name := get_site_name_for_cluster cfg cluster_name
        let collected := collect_vm_nics cfg site_name obj.addresses
        let ev := InventoryEvent.vm_upserted name cluster_name
          collected.vm_primary_ip4 collected.vm_primary_ip6
        (.processed, { s1 with inventory_log := s1.inventory_log ++ [ev] })
  else (.skipped_not_permitted, s)

/-- Modelled from the spec: SourceBase.add_update_interface is not part of
this repository's src/ (only its caller add_device_vm_to_inventory is).
Per §4.6 step 9 of the spec it validates each declared address of the
interface against the permitted-subnet policy and, if rejected, skips only
that address with a diagnostic, otherwise attaches/creates the IPAddress;
its attached addresses are therefore the permitted subset of the
interface's nic_ips entry. -/
def add_update_interface_attached_ips (cfg : HandlerConfig) (nic_name : String)
    (nic_ips : List String) : List String :=
  nic_ips.filter (fun ip => cfg.settings.permitted ip nic_name)

/-- The addresses attached for one network by the interface loop of
add_device_vm_to_inventory (lines 636-648): nothing when the network has
no interface entry (no address of it was accepted into vnic_data),
otherwise the attached addresses of its nic_ips entry. -/
def attached_ips_for_network (cfg : HandlerConfig) (collected : CollectedNics)
    (network : String) : List String :=
  match collected.vm_nic_dict.lookup network with
  | some nd =>
    add_update_interface_attached_ips cfg nd.nic_name
      ((collected.nic_ips.lookup network).getD [])
  | none => []

theorem dict_set_lookup_self {β : Type} (d : List (String × β)) (k : String) (v : β) :
    (dict_set d k v).lookup k = some v := by
  induction d with
  | nil => simp [dict_set, List.lookup]
  | cons kv rest ih =>
    obtain ⟨k2, v2⟩ := kv
    by_cases h : k2 = k
    · subst h
      simp [dict_set, List.lookup]
    · have hb : (k == k2) = false := beq_eq_false_iff_ne.mpr (Ne.symm h)
      simp [dict_set, h, List.lookup, hb, ih]

theorem dict_set_lookup_other {β : Type} (d : List (String × β)) (k j : String) (v : β)
    (hne : j ≠ k) : (dict_set d k v).lookup j = d.lookup j := by
  induction d with
  | nil =>
    have hb : (j == k) = false := beq_eq_false_iff_ne.mpr hne
    simp [dict_set, List.lookup, hb]
  | cons kv rest ih =>
    obtain ⟨k2, v2⟩ := kv
    by_cases h : k2 = k
    · subst h
      have hb : (j == k2) = false := beq_eq_false_iff_ne.mpr hne
      simp [dict_set, List.lookup, hb]
    · cases hjk : (j == k2) with
      | true => simp [dict_set, h, List.lookup, hjk]
      | false => simp [dict_set, h, List.lookup, hjk, ih]

theorem add_host_processed (cfg : HandlerConfig) (s s1 : RunState) (h1 : HypervisorRec)
    (hrun : add_host cfg s h1 = (.processed, s1)) :
    ∃ site, host_scope cfg h1 = some site ∧
      (s1.processed_host_names.lookup site).getD [] =
        ((s.processed_host_names.lookup site).getD []) ++ [host_entity_name cfg h1] := by
  simp only [add_host] at hrun
  split at hrun
  · simp at hrun
  next cn1 hc1 =>
    split at hrun
    · split at hrun
      · simp at hrun
      next hd =>
        split at hrun
        · simp at hrun
        next hf =>
          next hp1 =>
            refine ⟨get_site_name_for_device cfg (host_entity_name cfg h1) cn1, ?_, ?_⟩
            · simp only [host_scope, hc1, if_pos hp1]
            · have hs1 : s1.processed_host_names =
                  dict_set s.processed_host_names
                    (get_site_name_for_device cfg (host_entity_name cfg h1) cn1)
                    (((s.processed_host_names.lookup
                      (get_site_name_for_device cfg (host_entity_name cfg h1) cn1)).getD [])
                        ++ [host_entity_name cfg h1]) := by
                have := congrArg Prod.snd hrun
                simp at this
                rw [← this]
              rw [hs1, dict_set_lookup_self]
              rfl
    · simp at hrun

theorem add_host_duplicate (cfg : HandlerConfig) (s : RunState) (h2 : HypervisorRec)
    (site : String) (hs : host_scope cfg h2 = some site)
    (hmem : host_entity_name cfg h2 ∈ (s.processed_host_names.lookup site).getD []) :
    add_host cfg s h2 = (.skipped_duplicate_warning, s) := by
  unfold host_scope at hs
  cases hc : get_cluster_for_host cfg.cluster_host_map h2.service_host with
  | none =>
    simp only [hc] at hs
    cases hs
  | some cn =>
    simp only [hc] at hs
    by_cases hp : (cfg.permitted_clusters.lookup cn).isSome = true
    · rw [if_pos hp] at hs
      have hsite : get_site_name_for_device cfg (host_entity_name cfg h2) cn = site :=
        Option.some.inj hs
      simp only [add_host, hc, if_pos hp, hsite, if_pos hmem]
    · rw [if_neg hp] at hs
      cases hs

theorem add_vm_processed (cfg : HandlerConfig) (s s1 : RunState) (v1 : ServerRec)
    (hrun : add_virtual_machine cfg s v1 = (.processed, s1)) :
    (cfg.permitted_clusters.lookup (vm_cluster_name cfg v1)).isSome = true ∧
    (s1.processed_vm_names.lookup (vm_cluster_name cfg v1)).getD [] =
      ((s.processed_vm_names.lookup (vm_cluster_name cfg v1)).getD []) ++
        [vm_entity_name cfg v1] := by
  simp only [add_virtual_machine] at hrun
  split at hrun
  next hp =>
    split at hrun
    · simp at hrun
    next hd =>
      split at hrun
      · simp at hrun
      next hf =>
        refine ⟨hp, ?_⟩
        have hs1 : s1.processed_vm_names =
            dict_set s.processed_vm_names (vm_cluster_name cfg v1)
              (((s.processed_vm_names.lookup (vm_cluster_name cfg v1)).getD []) ++
                [vm_entity_name cfg v1]) := by
          have := congrArg Prod.snd hrun
          simp at this
          rw [← this]
        rw [hs1, dict_set_lookup_self]
        rfl
  next hp => simp at hrun

theorem add_vm_duplicate (cfg : HandlerConfig) (s : RunState) (v2 : ServerRec)
    (hp : (cfg.permitted_clusters.lookup (vm_cluster_name cfg v2)).isSome = true)
    (hmem : vm_entity_name cfg v2 ∈
      (s.processed_vm_names.lookup (vm_cluster_name cfg v2)).getD []) :
    add_virtual_machine cfg s v2 = (.skipped_duplicate_warning, s) := by
  simp only [add_virtual_machine, if_pos hp, if_pos hmem]

/-- C5: once an entity has been processed within a run, a later entity with
the same resolved name in the same scope (the site for hosts/devices, the
cluster for VMs) is skipped with the duplicate warning and the run state -
processed-name registries and inventory log alike - is left completely
untouched for it. -/
theorem claim_C5_duplicate_name_skip :
    (∀ (cfg : HandlerConfig) (s s1 : RunState) (h1 h2 : HypervisorRec),
      add_host cfg s h1 = (.processed, s1) →
      host_entity_name cfg h2 = host_entity_name cfg h1 →
      host_scope cfg h2 = host_scope cfg h1 →
      add_host cfg s1 h2 = (.skipped_duplicate_warning, s1)) ∧
    (∀ (cfg : HandlerConfig) (s s1 : RunState) (v1 v2 : ServerRec),
      add_virtual_machine cfg s v1 = (.processed, s1) →
      vm_entity_name cfg v2 = vm_entity_name cfg v1 →
      vm_cluster_name cfg v2 = vm_cluster_name cfg v1 →
      add_virtual_machine cfg s1 v2 = (.skipped_duplicate_warning, s1)) := by
  constructor
  · intro cfg s s1 h1 h2 hrun hname hscope
    obtain ⟨site, hsc, hreg⟩ := add_host_processed cfg s s1 h1 hrun
    refine add_host_duplicate cfg s1 h2 site (by rw [hscope, hsc]) ?_
    rw [hname, hreg]
    exact List.mem_append_right _ (List.mem_singleton_self _)
  · intro cfg s s1 v1 v2 hrun hname hcl
    obtain ⟨hp, hreg⟩ := add_vm_processed cfg s s1 v1 hrun
    refine add_vm_duplicate cfg s1 v2 (by rw [hcl]; exact hp) ?_
    rw [hname, hcl, hreg]
    exact List.mem_append_right _ (List.mem_singleton_self _)

/-- A minimal run context: one permitted cluster az1 containing host node1,
no relations configured, no name filters, no prefixes, every subnet
permitted. -/
def demo_cfg : HandlerConfig :=
  { settings :=
      { strip_host_domain_name := false
        strip_vm_domain_name := false
        set_vm_name_to_uuid := false
        host_include_filter := none
        host_exclude_filter := none
        vm_include_filter := none
        vm_exclude_filter := none
        host_site_relation := []
        cluster_site_relation := []
        permitted := fun _ _ => true }
    site_name := "OpenStack: demo"
    permitted_clusters := [("az1", "OpenStack: demo")]
    cluster_host_map := [("az1", ["node1"])]
    longest_matching_prefixlen := fun _ _ => none
    normalize_mac := fun m => some m }

/-- The empty run state at the start of a run. -/
def demo_state0 : RunState :=
  { processed_host_names := [], processed_vm_names := [], inventory_log := [] }

/-- A hypervisor record used by the pipeline examples. -/
def demo_host : HypervisorRec :=
  { name := "node1", service_host := "node1", status := "enabled", host_ip := "10.0.0.9" }

/-- The run state after demo_host has been processed once in demo_cfg. -/
def demo_state1 : RunState :=
  { processed_host_names := [("OpenStack: demo", ["node1"])]
    processed_vm_names := []
    inventory_log :=
      [.device_upserted "node1" "OpenStack: demo" (some "10.0.0.9") none] }

theorem claim_C5_duplicate_name_skip_witness :
    add_host demo_cfg demo_state1 demo_host = (.skipped_duplicate_warning, demo_state1) :=
  claim_C5_duplicate_name_skip.1 demo_cfg demo_state0 demo_state1 demo_host demo_host
    (by decide) rfl rfl

theorem add_host_filtered (cfg : HandlerConfig) (s s1 : RunState) (h1 : HypervisorRec)
    (hrun : add_host cfg s h1 = (.skipped_by_name_filter, s1)) :
    ∃ site, host_scope cfg h1 = some site ∧
      (s1.processed_host_names.lookup site).getD [] =
        ((s.processed_host_names.lookup site).getD []) ++ [host_entity_name cfg h1] ∧
      s1.inventory_log = s.inventory_log := by
  simp only [add_host] at hrun
  split at hrun
  · simp at hrun
  next cn1 hc1 =>
    split at hrun
    · split at hrun
      · simp at hrun
      next hd =>
        split at hrun
        next hf =>
          next hp1 =>
            refine ⟨get_site_name_for_device cfg (host_entity_name cfg h1) cn1, ?_, ?_, ?_⟩
            · simp only [host_scope, hc1, if_pos hp1]
            · have hs1 : s1.processed_host_names =
                  dict_set s.processed_host_names
                    (get_site_name_for_device cfg (host_entity_name cfg h1) cn1)
                    (((s.processed_host_names.lookup
                      (get_site_name_for_device cfg (host_entity_name cfg h1) cn1)).getD [])
                        ++ [host_entity_name cfg h1]) := by
                have := congrArg Prod.snd hrun
                simp at this
                rw [← this]
              rw [hs1, dict_set_lookup_self]
              rfl
            · have := congrArg Prod.snd hrun
              simp at this
              rw [← this]
        · simp at hrun
    · simp at hrun

theorem add_host_early_skip_unchanged (cfg : HandlerConfig) (s s1 : RunState)
    (out : EntityOutcome) (h1 : HypervisorRec)
    (hrun : add_host cfg s h1 = (out, s1))
    (hout : out = .skipped_no_cluster ∨ out = .skipped_not_permitted ∨
      out = .skipped_duplicate_warning) : s1 = s := by
  simp only [add_host] at hrun
  split at hrun
  · injection hrun with ho hs
    exact hs.symm
  next cn1 hc1 =>
    split at hrun
    · split at hrun
      · injection hrun with ho hs
        exact hs.symm
      next hd =>
        split at hrun
        next hf =>
          injection hrun with ho hs
          subst ho
          rcases hout with h | h | h <;> simp at h
        next hf =>
          injection hrun with ho hs
          subst ho
          rcases hout with h | h | h <;> simp at h
    · injection hrun with ho hs
      exact hs.symm

theorem add_vm_filtered (cfg : HandlerConfig) (s s1 : RunState) (v1 : ServerRec)
    (hrun : add_virtual_machine cfg s v1 = (.skipped_by_name_filter, s1)) :
    (cfg.permitted_clusters.lookup (vm_cluster_name cfg v1)).isSome = true ∧
    (s1.processed_vm_names.lookup (vm_cluster_name cfg v1)).getD [] =
      ((s.processed_vm_names.lookup (vm_cluster_name cfg v1)).getD []) ++
        [vm_entity_name cfg v1] ∧
    s1.inventory_log = s.inventory_log := by
  simp only [add_virtual_machine] at hrun
  split at hrun
  next hp =>
    split at hrun
    · simp at hrun
    next hd =>
      split at hrun
      next hf =>
        refine ⟨hp, ?_, ?_⟩
        · have hs1 : s1.processed_vm_names =
              dict_set s.processed_vm_names (vm_cluster_name cfg v1)
                (((s.processed_vm_names.lookup (vm_cluster_name cfg v1)).getD []) ++
                  [vm_entity_name cfg v1]) := by
            have := congrArg Prod.snd hrun
            simp at this
            rw [← this]
          rw [hs1, dict_set_lookup_self]
          rfl
        · have := congrArg Prod.snd hrun
          simp at this
          rw [← this]
      next hf => simp at hrun
  next hp => simp at hrun

/-- The demo context with a host include filter that node1 does not
match. -/
def c8_cfg : HandlerConfig :=
  { demo_cfg with settings :=
      { demo_cfg.settings with host_include_filter := some (fun n => n == "other") } }

/-- C8 counterexample: with an include filter rejecting node1, add_host
ends in the name-filter skip, yet node1 is recorded in the per-site
registry (with no inventory mutation at all), and a second record with the
same name is treated as a duplicate of the filtered-out one - the claim
says a filter-rejected entity is never recorded. -/
theorem claim_C8_counterexample :
    (add_host c8_cfg demo_state0 demo_host).1 = .skipped_by_name_filter ∧
    "node1" ∈ (((add_host c8_cfg demo_state0 demo_host).2).processed_host_names.lookup
      "OpenStack: demo").getD [] ∧
    (add_host c8_cfg demo_state0 demo_host).2.inventory_log = [] ∧
    (add_host c8_cfg ((add_host c8_cfg demo_state0 demo_host).2) demo_host).1 =
      .skipped_duplicate_warning := by
  refine ⟨?_, ?_, ?_, ?_⟩ <;> decide

/-- C8 amended: the per-scope registration happens immediately after the
duplicate check and before the FilterEngine name filter, not as the final
pipeline step. An entity rejected by the name filter is recorded in the
registry although no inventory mutation took place, and a later entity
with the same name in the same scope is treated as its duplicate; only the
skips that occur before the duplicate check (unresolvable cluster,
non-permitted cluster, and the duplicate skip itself) leave the run state
untouched. -/
theorem claim_C8_registration_order_amended :
    (∀ (cfg : HandlerConfig) (s s1 : RunState) (h1 : HypervisorRec) (site : String),
      add_host cfg s h1 = (.skipped_by_name_filter, s1) →
      host_scope cfg h1 = some site →
      host_entity_name cfg h1 ∈ (s1.processed_host_names.lookup site).getD [] ∧
      s1.inventory_log = s.inventory_log ∧
      (∀ h2 : HypervisorRec, host_entity_name cfg h2 = host_entity_name cfg h1 →
        host_scope cfg h2 = some site →
        add_host cfg s1 h2 = (.skipped_duplicate_warning, s1))) ∧
    (∀ (cfg : HandlerConfig) (s s1 : RunState) (out : EntityOutcome) (h1 : HypervisorRec),
      add_host cfg s h1 = (out, s1) →
      (out = .skipped_no_cluster ∨ out = .skipped_not_permitted ∨
        out = .skipped_duplicate_warning) → s1 = s) ∧
    (∀ (cfg : HandlerConfig) (s s1 : RunState) (v1 : ServerRec),
      add_virtual_machine cfg s v1 = (.skipped_by_name_filter, s1) →
      vm_entity_name cfg v1 ∈
        (s1.processed_vm_names.lookup (vm_cluster_name cfg v1)).getD [] ∧
      s1.inventory_log = s.inventory_log ∧
      (∀ v2 : ServerRec, vm_entity_name cfg v2 = vm_entity_name cfg v1 →
        vm_cluster_name cfg v2 = vm_cluster_name cfg v1 →
        add_virtual_machine cfg s1 v2 = (.skipped_duplicate_warning, s1))) := by
  refine ⟨?_, ?_, ?_⟩
  · intro cfg s s1 h1 site hrun hsc
    obtain ⟨site2, hsc2, hreg, hlog⟩ := add_host_filtered cfg s s1 h1 hrun
    rw [hsc] at hsc2
    have hs : site2 = site := (Option.some.inj hsc2).symm
    subst hs
    have hmem : host_entity_name cfg h1 ∈ (s1.processed_host_names.lookup site2).getD [] := by
      rw [hreg]
      exact List.mem_append_right _ (List.mem_singleton_self _)
    refine ⟨hmem, hlog, ?_⟩
    intro h2 hname hsc3
    refine add_host_duplicate cfg s1 h2 site2 hsc3 ?_
    rw [hname]
    exact hmem
  · exact fun cfg s s1 out h1 hrun hout =>
      add_host_early_skip_unchanged cfg s s1 out h1 hrun hout
  · intro cfg s s1 v1 hrun
    obtain ⟨hp, hreg, hlog⟩ := add_vm_filtered cfg s s1 v1 hrun
    have hmem : vm_entity_name cfg v1 ∈
        (s1.processed_vm_names.lookup (vm_cluster_name cfg v1)).getD [] := by
      rw [hreg]
      exact List.mem_append_right _ (List.mem_singleton_self _)
    refine ⟨hmem, hlog, ?_⟩
    intro v2 hname hcl
    refine add_vm_duplicate cfg s1 v2 (by rw [hcl]; exact hp) ?_
    rw [hname, hcl]
    exact hmem

theorem claim_C8_registration_order_amended_witness :
    add_host c8_cfg ((add_host c8_cfg demo_state0 demo_host).2) demo_host =
      (.skipped_duplicate_warning, (add_host c8_cfg demo_state0 demo_host).2) := by
  have h := claim_C8_registration_order_amended.1 c8_cfg demo_state0
    ((add_host c8_cfg demo_state0 demo_host).2) demo_host "OpenStack: demo"
    (by decide) (by decide)
  exact h.2.2 demo_host rfl (by decide)

theorem getLast?_cons_eq {α : Type} (a b : α) (l : List α) (h : l.getLast? = some b) :
    (a :: l).getLast? = some b := by
  cases l with
  | nil => cases h
  | cons c l2 =>
    rw [List.getLast?_cons_cons]
    exact h

theorem getLast?_none_eq_nil {α : Type} (l : List α) (h : l.getLast? = none) : l = [] := by
  cases l with
  | nil => rfl
  | cons a l2 =>
    exfalso
    cases hl : (a :: l2).getLast? with
    | none =>
      have := List.getLast?_isSome.mpr (List.cons_ne_nil a l2)
      rw [hl] at this
      cases this
    | some b =>
      rw [hl] at h
      cases h

theorem getLast?_append_some {α : Type} (l1 l2 : List α) (b : α)
    (h : l2.getLast? = some b) : (l1 ++ l2).getLast? = some b := by
  induction l1 with
  | nil => exact h
  | cons a rest ih =>
    rw [List.cons_append]
    exact getLast?_cons_eq a b _ ih

theorem process_address_p4 (cfg : HandlerConfig) (site_name network : String) (count : Nat)
    (acc : CollectedNics) (address : OSAddressRec) :
    (process_address cfg site_name network count acc address).vm_primary_ip4 =
      (if address.ip_version = 4 then
        some (enrich_with_prefixlen cfg address.addr (some site_name))
      else acc.vm_primary_ip4) := by
  unfold process_address
  by_cases h4 : address.ip_version = 4 <;> by_cases h6 : address.ip_version = 6 <;>
    by_cases hp : cfg.settings.permitted
      (enrich_with_prefixlen cfg address.addr (some site_name))
      (nic_full_name count network) <;>
    simp [h4, h6, hp]

theorem process_address_p6 (cfg : HandlerConfig) (site_name network : String) (count : Nat)
    (acc : CollectedNics) (address : OSAddressRec) :
    (process_address cfg site_name network count acc address).vm_primary_ip6 =
      (if address.ip_version = 6 then
        some (enrich_with_prefixlen cfg address.addr (some site_name))
      else acc.vm_primary_ip6) := by
  unfold process_address
  by_cases h4 : address.ip_version = 4 <;> by_cases h6 : address.ip_version = 6 <;>
    by_cases hp : cfg.settings.permitted
      (enrich_with_prefixlen cfg address.addr (some site_name))
      (nic_full_name count network) <;>
    simp [h4, h6, hp]

theorem foldl_process_p4 (cfg : HandlerConfig) (site_name network : String) (count : Nat)
    (addresses : List OSAddressRec) :
    ∀ acc : CollectedNics,
      (addresses.foldl (process_address cfg site_name network count) acc).vm_primary_ip4 =
        (match (addresses.filter (fun a => a.ip_version == 4)).getLast? with
        | some a => some (enrich_with_prefixlen cfg a.addr (some site_name))
        | none => acc.vm_primary_ip4) := by
  induction addresses with
  | nil =>
    intro acc
    rfl
  | cons a rest ih =>
    intro acc
    rw [List.foldl_cons, ih]
    by_cases h4 : a.ip_version = 4
    · rw [List.filter_cons_of_pos (by simpa using h4)]
      cases hl : (rest.filter (fun x => x.ip_version == 4)).getLast? with
      | some b => rw [getLast?_cons_eq a b _ hl]
      | none =>
        rw [getLast?_none_eq_nil _ hl]
        simp [process_address_p4, h4]
    · rw [List.filter_cons_of_neg (by simpa using h4)]
      cases hl : (rest.filter (fun x => x.ip_version == 4)).getLast? with
      | some b => rfl
      | none => simp [process_address_p4, h4]

theorem foldl_process_p6 (cfg : HandlerConfig) (site_name network : String) (count : Nat)
    (addresses : List OSAddressRec) :
    ∀ acc : CollectedNics,
      (addresses.foldl (process_address cfg site_name network count) acc).vm_primary_ip6 =
        (match (addresses.filter (fun a => a.ip_version == 6)).getLast? with
        | some a => some (enrich_with_prefixlen cfg a.addr (some site_name))
        | none => acc.vm_primary_ip6) := by
  induction addresses with
  | nil =>
    intro acc
    rfl
  | cons a rest ih =>
    intro acc
    rw [List.foldl_cons, ih]
    by_cases h6 : a.ip_version = 6
    · rw [List.filter_cons_of_pos (by simpa using h6)]
      cases hl : (rest.filter (fun x => x.ip_version == 6)).getLast? with
      | some b => rw [getLast?_cons_eq a b _ hl]
      | none =>
        rw [getLast?_none_eq_nil _ hl]
        simp [process_address_p6, h6]
    · rw [List.filter_cons_of_neg (by simpa using h6)]
      cases hl : (rest.filter (fun x => x.ip_version == 6)).getLast? with
      | some b => rfl
      | none => simp [process_address_p6, h6]

theorem collect_go_p4 (cfg : HandlerConfig) (site_name : String)
    (networks : List (String × List OSAddressRec)) :
    ∀ (count : Nat) (acc : CollectedNics),
      (collect_vm_nics_go cfg site_name networks count acc).vm_primary_ip4 =
        (match ((networks.flatMap Prod.snd).filter (fun a => a.ip_version == 4)).getLast? with
        | some a => some (enrich_with_prefixlen cfg a.addr (some site_name))
        | none => acc.vm_primary_ip4) := by
  induction networks with
  | nil =>
    intro count acc
    rfl
  | cons nw rest ih =>
    intro count acc
    obtain ⟨network, addresses⟩ := nw
    simp only [collect_vm_nics_go]
    rw [ih]
    simp only [List.flatMap_cons, List.filter_append]
    cases hl : ((rest.flatMap Prod.snd).filter (fun a => a.ip_version == 4)).getLast? with
    | some b =>
      rw [getLast?_append_some _ _ b hl]
    | none =>
      rw [getLast?_none_eq_nil _ hl, List.append_nil, foldl_process_p4]

theorem collect_go_p6 (cfg : HandlerConfig) (site_name : String)
    (networks : List (String × List OSAddressRec)) :
    ∀ (count : Nat) (acc : CollectedNics),
      (collect_vm_nics_go cfg site_name networks count acc).vm_primary_ip6 =
        (match ((networks.flatMap Prod.snd).filter (fun a => a.ip_version == 6)).getLast? with
        | some a => some (enrich_with_prefixlen cfg a.addr (some site_name))
        | none => acc.vm_primary_ip6) := by
  induction networks with
  | nil =>
    intro count acc
    rfl
  | cons nw rest ih =>
    intro count acc
    obtain ⟨network, addresses⟩ := nw
    simp only [collect_vm_nics_go]
    rw [ih]
    simp only [List.flatMap_cons, List.filter_append]
    cases hl : ((rest.flatMap Prod.snd).filter (fun a => a.ip_version == 6)).getLast? with
    | some b =>
      rw [getLast?_append_some _ _ b hl]
    | none =>
      rw [getLast?_none_eq_nil _ hl, List.append_nil, foldl_process_p6]

theorem enrich_with_prefixlen_congr (cfg1 cfg2 : HandlerConfig) (ip : String)
    (site : Option String)
    (h : cfg1.longest_matching_prefixlen = cfg2.longest_matching_prefixlen) :
    enrich_with_prefixlen cfg1 ip site = enrich_with_prefixlen cfg2 ip site := by
  unfold enrich_with_prefixlen
  rw [h]

/-- C10: the primary IPv4 (and likewise IPv6) handed by add_virtual_machine
to matching and primary-IP arbitration is the enrichment of the last
declared address of that IP version in the record's network/address
iteration order; the permitted-subnet policy has no influence on it, so
this holds even when that address was rejected. -/
theorem claim_C10_last_declared_primary (cfg : HandlerConfig) (site_name : String)
    (networks : List (String × List OSAddressRec)) :
    (collect_vm_nics cfg site_name networks).vm_primary_ip4 =
      (((networks.flatMap Prod.snd).filter (fun a => a.ip_version == 4)).getLast?).map
        (fun a => enrich_with_prefixlen cfg a.addr (some site_name)) ∧
    (collect_vm_nics cfg site_name networks).vm_primary_ip6 =
      (((networks.flatMap Prod.snd).filter (fun a => a.ip_version == 6)).getLast?).map
        (fun a => enrich_with_prefixlen cfg a.addr (some site_name)) ∧
    (∀ cfg2 : HandlerConfig,
      cfg2.longest_matching_prefixlen = cfg.longest_matching_prefixlen →
      (collect_vm_nics cfg2 site_name networks).vm_primary_ip4 =
        (collect_vm_nics cfg site_name networks).vm_primary_ip4 ∧
      (collect_vm_nics cfg2 site_name networks).vm_primary_ip6 =
        (collect_vm_nics cfg site_name networks).vm_primary_ip6) := by
  have key4 : ∀ cfg1 : HandlerConfig,
      (collect_vm_nics cfg1 site_name networks).vm_primary_ip4 =
        (((networks.flatMap Prod.snd).filter (fun a => a.ip_version == 4)).getLast?).map
          (fun a => enrich_with_prefixlen cfg1 a.addr (some site_name)) := by
    intro cfg1
    unfold collect_vm_nics
    rw [collect_go_p4]
    cases ((networks.flatMap Prod.snd).filter (fun a => a.ip_version == 4)).getLast? with
    | some a => rfl
    | none => rfl
  have key6 : ∀ cfg1 : HandlerConfig,
      (collect_vm_nics cfg1 site_name networks).vm_primary_ip6 =
        (((networks.flatMap Prod.snd).filter (fun a => a.ip_version == 6)).getLast?).map
          (fun a => enrich_with_prefixlen cfg1 a.addr (some site_name)) := by
    intro cfg1
    unfold collect_vm_nics
    rw [collect_go_p6]
    cases ((networks.flatMap Prod.snd).filter (fun a => a.ip_version == 6)).getLast? with
    | some a => rfl
    | none => rfl
  refine ⟨key4 cfg, key6 cfg, ?_⟩
  intro cfg2 hpre
  constructor
  · rw [key4 cfg2, key4 cfg]
    cases ((networks.flatMap Prod.snd).filter (fun a => a.ip_version == 4)).getLast? with
    | none => rfl
    | some a =>
      show some (enrich_with_prefixlen cfg2 a.addr (some site_name)) =
        some (enrich_with_prefixlen cfg a.addr (some site_name))
      rw [enrich_with_prefixlen_congr cfg2 cfg _ _ hpre]
  · rw [key6 cfg2, key6 cfg]
    cases ((networks.flatMap Prod.snd).filter (fun a => a.ip_version == 6)).getLast? with
    | none => rfl
    | some a =>
      show some (enrich_with_prefixlen cfg2 a.addr (some site_name)) =
        some (enrich_with_prefixlen cfg a.addr (some site_name))
      rw [enrich_with_prefixlen_congr cfg2 cfg _ _ hpre]

/-- A server network list with two IPv4 addresses in one network; the later
one (10.0.0.7) is the one the permitted policy of c10_cfg rejects. -/
def c10_networks : List (String × List OSAddressRec) :=
  [("net0",
    [{ addr := "10.0.0.5", ip_version := 4, mac_addr := "aa:bb:cc:dd:ee:01" },
     { addr := "10.0.0.7", ip_version := 4, mac_addr := "aa:bb:cc:dd:ee:02" }])]

/-- The demo context with a permitted-subnet policy rejecting 10.0.0.7. -/
def c10_cfg : HandlerConfig :=
  { demo_cfg with settings :=
      { demo_cfg.settings with permitted := fun ip _ => ip != "10.0.0.7" } }

theorem claim_C10_last_declared_primary_witness :
    (collect_vm_nics c10_cfg "OpenStack: demo" c10_networks).vm_primary_ip4 =
      some "10.0.0.7" := by
  have h := (claim_C10_last_declared_primary c10_cfg "OpenStack: demo" c10_networks).1
  simpa using h

theorem process_address_nic_ips (cfg : HandlerConfig) (site_name network : String)
    (count : Nat) (acc : CollectedNics) (address : OSAddressRec) :
    (process_address cfg site_name network count acc address).nic_ips =
      dict_set acc.nic_ips network
        (((acc.nic_ips.lookup network).getD []) ++
          [enrich_with_prefixlen cfg address.addr (some site_name)]) := by
  unfold process_address
  by_cases h4 : address.ip_version = 4 <;> by_cases h6 : address.ip_version = 6 <;>
    by_cases hp : cfg.settings.permitted
      (enrich_with_prefixlen cfg address.addr (some site_name))
      (nic_full_name count network) <;>
    simp [h4, h6, hp]

theorem process_address_vm_nic_dict (cfg : HandlerConfig) (site_name network : String)
    (count : Nat) (acc : CollectedNics) (address : OSAddressRec) :
    (process_address cfg site_name network count acc address).vm_nic_dict =
      (if cfg.settings.permitted
          (enrich_with_prefixlen cfg address.addr (some site_name))
          (nic_full_name count network) then
        dict_set acc.vm_nic_dict network
          { nic_name := nic_full_name count network
            mac_address := cfg.normalize_mac address.mac_addr
            description := nic_full_name count network
            enabled := true }
      else acc.vm_nic_dict) := by
  unfold process_address
  by_cases h4 : address.ip_version = 4 <;> by_cases h6 : address.ip_version = 6 <;>
    by_cases hp : cfg.settings.permitted
      (enrich_with_prefixlen cfg address.addr (some site_name))
      (nic_full_name count network) <;>
    simp [h4, h6, hp]

theorem foldl_process_nic_ips_self (cfg : HandlerConfig) (site_name network : String)
    (count : Nat) (addresses : List OSAddressRec) :
    ∀ (acc : CollectedNics) (l : List String),
      acc.nic_ips.lookup network = some l →
      ((addresses.foldl (process_address cfg site_name network count) acc).nic_ips.lookup
        network) =
        some (l ++ addresses.map (fun a => enrich_with_prefixlen cfg a.addr (some site_name))) := by
  induction addresses with
  | nil =>
    intro acc l h
    simpa using h
  | cons a rest ih =>
    intro acc l h
    rw [List.foldl_cons]
    have hstep : (process_address cfg site_name network count acc a).nic_ips.lookup network =
        some (l ++ [enrich_with_prefixlen cfg a.addr (some site_name)]) := by
      rw [process_address_nic_ips, h, dict_set_lookup_self]
      rfl
    rw [ih _ _ hstep, List.map_cons]
    simp [List.append_assoc]

theorem foldl_process_other (cfg : HandlerConfig) (site_name network : String)
    (count : Nat) (addresses : List OSAddressRec) (net2 : String) (hne : net2 ≠ network) :
    ∀ acc : CollectedNics,
      ((addresses.foldl (process_address cfg site_name network count) acc).nic_ips.lookup
          net2 = acc.nic_ips.lookup net2) ∧
      ((addresses.foldl (process_address cfg site_name network count) acc).vm_nic_dict.lookup
          net2 = acc.vm_nic_dict.lookup net2) := by
  induction addresses with
  | nil =>
    intro acc
    exact ⟨rfl, rfl⟩
  | cons a rest ih =>
    intro acc
    rw [List.foldl_cons]
    obtain ⟨ih1, ih2⟩ := ih (process_address cfg site_name network count acc a)
    constructor
    · rw [ih1, process_address_nic_ips, dict_set_lookup_other _ _ _ _ hne]
    · rw [ih2, process_address_vm_nic_dict]
      by_cases hp : cfg.settings.permitted
          (enrich_with_prefixlen cfg a.addr (some site_name))
          (nic_full_name count network) = true
      · rw [if_pos hp, dict_set_lookup_other _ _ _ _ hne]
      · rw [if_neg hp]

theorem foldl_process_vm_nic_dict (cfg : HandlerConfig) (site_name network : String)
    (count : Nat) (addresses : List OSAddressRec) :
    ∀ acc : CollectedNics,
      ((∀ a ∈ addresses, cfg.settings.permitted
          (enrich_with_prefixlen cfg a.addr (some site_name))
          (nic_full_name count network) = false) ∧
        (addresses.foldl (process_address cfg site_name network count) acc).vm_nic_dict =
          acc.vm_nic_dict) ∨
      (∃ nd : VMNicData,
        (addresses.foldl (process_address cfg site_name network count) acc).vm_nic_dict.lookup
          network = some nd ∧ nd.nic_name = nic_full_name count network) := by
  induction addresses with
  | nil =>
    intro acc
    exact Or.inl ⟨fun a ha => absurd ha (List.not_mem_nil a), rfl⟩
  | cons a rest ih =>
    intro acc
    rw [List.foldl_cons]
    by_cases hp : cfg.settings.permitted
        (enrich_with_prefixlen cfg a.addr (some site_name))
        (nic_full_name count network) = true
    · rcases ih (process_address cfg site_name network count acc a) with ⟨hrej, heq⟩ | h
      · have hlook : (rest.foldl (process_address cfg site_name network count)
            (process_address cfg site_name network count acc a)).vm_nic_dict.lookup network =
            some
              { nic_name := nic_full_name count network
                mac_address := cfg.normalize_mac a.mac_addr
                description := nic_full_name count network
                enabled := true } := by
          rw [heq, process_address_vm_nic_dict, if_pos hp, dict_set_lookup_self]
        exact Or.inr ⟨_, hlook, rfl⟩
      · exact Or.inr h
    · rcases ih (process_address cfg site_name network count acc a) with ⟨hrej, heq⟩ | h
      · refine Or.inl ⟨?_, ?_⟩
        · intro x hx
          rcases List.mem_cons.mp hx with rfl | hm
          · exact eq_false_of_ne_true hp
          · exact hrej x hm
        · rw [heq, process_address_vm_nic_dict, if_neg hp]
      · exact Or.inr h

theorem collect_go_preserves (cfg : HandlerConfig) (site_name network : String)
    (networks : List (String × List OSAddressRec)) :
    ∀ (count : Nat) (acc : CollectedNics),
      network ∉ networks.map Prod.fst →
      ((collect_vm_nics_go cfg site_name networks count acc).nic_ips.lookup network =
        acc.nic_ips.lookup network) ∧
      ((collect_vm_nics_go cfg site_name networks count acc).vm_nic_dict.lookup network =
        acc.vm_nic_dict.lookup network) := by
  induction networks with
  | nil =>
    intro count acc hnot
    exact ⟨rfl, rfl⟩
  | cons nw rest ih =>
    intro count acc hnot
    obtain ⟨n2, as2⟩ := nw
    have hne : network ≠ n2 := by
      intro hc
      exact hnot (by rw [hc]; simp)
    have hnot2 : network ∉ rest.map Prod.fst := fun hc => hnot (by simp [hc])
    simp only [collect_vm_nics_go]
    obtain ⟨ihr1, ihr2⟩ := ih (count + 1)
      (as2.foldl (process_address cfg site_name n2 (count + 1))
        { acc with nic_ips := dict_set acc.nic_ips n2 [] }) hnot2
    obtain ⟨hf1, hf2⟩ := foldl_process_other cfg site_name n2 (count + 1) as2 network hne
      { acc with nic_ips := dict_set acc.nic_ips n2 [] }
    constructor
    · rw [ihr1, hf1]
      exact dict_set_lookup_other _ _ _ _ hne
    · rw [ihr2, hf2]

theorem collect_go_at_index (cfg : HandlerConfig) (site_name network : String) :
    ∀ (networks : List (String × List OSAddressRec)) (i : Nat)
      (addrs : List OSAddressRec) (count : Nat) (acc : CollectedNics),
      networks.get? i = some (network, addrs) →
      (networks.map Prod.fst).Nodup →
      ((collect_vm_nics_go cfg site_name networks count acc).nic_ips.lookup network =
        some (addrs.map (fun a => enrich_with_prefixlen cfg a.addr (some site_name)))) ∧
      (((∀ a ∈ addrs, cfg.settings.permitted
            (enrich_with_prefixlen cfg a.addr (some site_name))
            (nic_full_name (count + i + 1) network) = false) ∧
          (collect_vm_nics_go cfg site_name networks count acc).vm_nic_dict.lookup network =
            acc.vm_nic_dict.lookup network) ∨
        (∃ nd : VMNicData,
          (collect_vm_nics_go cfg site_name networks count acc).vm_nic_dict.lookup network =
            some nd ∧ nd.nic_name = nic_full_name (count + i + 1) network)) := by
  intro networks
  induction networks with
  | nil =>
    intro i addrs count acc hi
    cases hi
  | cons nw rest ih =>
    intro i addrs count acc hi hnd
    obtain ⟨n2, as2⟩ := nw
    simp only [List.map_cons, List.nodup_cons] at hnd
    cases i with
    | zero =>
      have hpair : (n2, as2) = (network, addrs) := Option.some.inj hi
      obtain ⟨h1, h2⟩ := Prod.mk.injEq _ _ _ _ ▸ hpair
      subst h1
      subst h2
      simp only [collect_vm_nics_go]
      obtain ⟨hp1, hp2⟩ := collect_go_preserves cfg site_name n2 rest (count + 1)
        (as2.foldl (process_address cfg site_name n2 (count + 1))
          { acc with nic_ips := dict_set acc.nic_ips n2 [] }) hnd.1
      constructor
      · rw [hp1]
        have hinit :
            ({ acc with nic_ips := dict_set acc.nic_ips n2 [] } : CollectedNics).nic_ips.lookup
              n2 = some [] := by
          simp [dict_set_lookup_self]
        rw [foldl_process_nic_ips_self cfg site_name n2 (count + 1) as2 _ [] hinit]
        rfl
      · rw [Nat.add_zero]
        rcases foldl_process_vm_nic_dict cfg site_name n2 (count + 1) as2
            { acc with nic_ips := dict_set acc.nic_ips n2 [] } with ⟨hrej, heq⟩ | ⟨nd, hn, hm⟩
        · refine Or.inl ⟨hrej, ?_⟩
          rw [hp2, heq]
        · exact Or.inr ⟨nd, by rw [hp2]; exact hn, hm⟩
    | succ j =>
      have hj : rest.get? j = some (network, addrs) := hi
      have hmem : network ∈ rest.map Prod.fst := by
        have := List.get?_mem hj
        exact List.mem_map_of_mem Prod.fst this
      have hne : network ≠ n2 := by
        intro hc
        rw [hc] at hmem
        exact hnd.1 hmem
      simp only [collect_vm_nics_go]
      obtain ⟨ih1, ih2⟩ := ih j addrs (count + 1)
        (as2.foldl (process_address cfg site_name n2 (count + 1))
          { acc with nic_ips := dict_set acc.nic_ips n2 [] }) hj hnd.2
      have hidx : count + 1 + j + 1 = count + (j + 1) + 1 := by omega
      rw [hidx] at ih2
      refine ⟨ih1, ?_⟩
      obtain ⟨hf1, hf2⟩ := foldl_process_other cfg site_name n2 (count + 1) as2 network hne
        { acc with nic_ips := dict_set acc.nic_ips n2 [] }
      rcases ih2 with ⟨hrej, heq⟩ | h
      · refine Or.inl ⟨hrej, ?_⟩
        rw [heq, hf2]
      · exact Or.inr h

theorem filter_eq_nil_of_false {α : Type} (p : α → Bool) (l : List α)
    (h : ∀ a ∈ l, p a = false) : l.filter p = [] := by
  induction l with
  | nil => rfl
  | cons a rest ih =>
    rw [List.filter_cons_of_neg (by simp [h a (List.mem_cons_self a rest)])]
    exact ih (fun x hx => h x (List.mem_cons_of_mem a hx))

/-- C7 (with add_update_interface modelled from the spec): for every
network of the server record, the addresses attached for its interface are
exactly the permitted subset of its declared (enriched) addresses - a
rejected address is skipped as exactly that single address and is never
attached, while every accepted address of that interface and of every
other interface is attached unaffected; an interface none of whose
addresses were accepted attaches nothing. -/
theorem claim_C7_rejected_address_isolated (cfg : HandlerConfig) (site_name : String)
    (networks : List (String × List OSAddressRec)) (i : Nat) (network : String)
    (addrs : List OSAddressRec)
    (hkeys : (networks.map Prod.fst).Nodup)
    (hi : networks.get? i = some (network, addrs)) :
    attached_ips_for_network cfg (collect_vm_nics cfg site_name networks) network =
      (addrs.map (fun a => enrich_with_prefixlen cfg a.addr (some site_name))).filter
        (fun e => cfg.settings.permitted e (nic_full_name (i + 1) network)) := by
  unfold collect_vm_nics
  obtain ⟨hips, hdict⟩ := collect_go_at_index cfg site_name network networks i addrs 0
    { vm_primary_ip4 := none, vm_primary_ip6 := none, vm_nic_dict := [], nic_ips := [] }
    hi hkeys
  rw [Nat.zero_add] at hdict
  unfold attached_ips_for_network
  rcases hdict with ⟨hrej, heq⟩ | ⟨nd, hnd, hname⟩
  · simp only [heq]
    have hall : ∀ e ∈ addrs.map (fun a => enrich_with_prefixlen cfg a.addr (some site_name)),
        cfg.settings.permitted e (nic_full_name (i + 1) network) = false := by
      intro e he
      rcases List.mem_map.mp he with ⟨a, ha, rfl⟩
      exact hrej a ha
    rw [filter_eq_nil_of_false _ _ hall]
    rfl
  · simp only [hnd, hips, hname, add_update_interface_attached_ips, Option.getD_some]

theorem claim_C7_rejected_address_isolated_witness :
    attached_ips_for_network c10_cfg
      (collect_vm_nics c10_cfg "OpenStack: demo" c10_networks) "net0" = ["10.0.0.5"] := by
  rw [claim_C7_rejected_address_isolated c10_cfg "OpenStack: demo" c10_networks 0 "net0"
    [{ addr := "10.0.0.5", ip_version := 4, mac_addr := "aa:bb:cc:dd:ee:01" },
     { addr := "10.0.0.7", ip_version := 4, mac_addr := "aa:bb:cc:dd:ee:02" }]
    (by decide) (by decide)]
  decide

end OpenStackSync
